import Mathlib

/-! Logging manager of the PSP emulator front end.

A shallow embedding of `Common/LogManager.cpp`: the channel table, the severity
filter, message formatting, dispatch to listeners, the configuration round trip
and the ring buffer listener.  C strings are lists of characters (without the
terminating NUL), pointers to listeners are numbers, the locks are left out
(the model is sequential).
-/

namespace LogTypes

/-- Modelled from the spec: the enumeration `LOG_LEVELS` is declared in the absent
header `Log.h`.  A level is its numeric value ("greater numeric value = less
severe"); the field of a channel can hold any integer, because `LoadConfig` casts
the integer read from the section. -/
abbrev LOG_LEVELS := Int

/-- Modelled from the spec: the numeric values of the levels, declared in the absent
header `Log.h`; each is the index of the level's glyph in `level_to_char`
(`"-NEWIDV"`). -/
def LNOTICE : LOG_LEVELS := 1

/-- Modelled from the spec: see `LNOTICE`. -/
def LERROR : LOG_LEVELS := 2

/-- Modelled from the spec: see `LNOTICE`. -/
def LWARNING : LOG_LEVELS := 3

/-- Modelled from the spec: see `LNOTICE`. -/
def LINFO : LOG_LEVELS := 4

/-- Modelled from the spec: see `LNOTICE`. -/
def LDEBUG : LOG_LEVELS := 5

/-- Modelled from the spec: see `LNOTICE`. -/
def LVERBOSE : LOG_LEVELS := 6

/-- Modelled from the spec: `NUMBER_OF_LOGS` is the last member of the enumeration
`LOG_TYPE` of the absent header `Log.h`; the constructor's check
`i != logTable[i].logType` makes it the number of rows of `logTable`. -/
abbrev NUMBER_OF_LOGS : Nat := 28

/-- A channel index: a member of the enumeration `LOG_TYPE` below `NUMBER_OF_LOGS`. -/
abbrev LOG_TYPE := Fin NUMBER_OF_LOGS

end LogTypes

open LogTypes

/-- Compile-time switches of the source and the sizes of the fixed character arrays
that the absent header `LogManager.h` declares. -/
structure Build where
  /-- True when `_WIN32` is defined. -/
  win32 : Bool
  /-- True when `_DEBUG` is defined. -/
  debug : Bool
  /-- True when `MOBILE_DEVICE` is defined. -/
  mobile : Bool
  /-- The value of `sizeof(LogMessage::header)`. -/
  headerSize : Nat
  /-- The value of `sizeof(LogChannel::m_shortName)`. -/
  shortNameSize : Nat

/-- A row of the channel name table. -/
structure LogNameTableEntry where
  logType : LOG_TYPE
  name : List Char

/-- The table `logTable` of `LogManager.cpp`. -/
def logTable : List LogNameTableEntry :=
  [ ⟨0, "SYSTEM".toList⟩, ⟨1, "BOOT".toList⟩, ⟨2, "COMMON".toList⟩, ⟨3, "CPU".toList⟩,
    ⟨4, "FILESYS".toList⟩, ⟨5, "G3D".toList⟩, ⟨6, "HLE".toList⟩, ⟨7, "JIT".toList⟩,
    ⟨8, "LOADER".toList⟩, ⟨9, "ME".toList⟩, ⟨10, "MEMMAP".toList⟩, ⟨11, "SASMIX".toList⟩,
    ⟨12, "SAVESTATE".toList⟩, ⟨13, "FRAMEBUF".toList⟩,
    ⟨14, "SCEAUDIO".toList⟩, ⟨15, "SCECTRL".toList⟩, ⟨16, "SCEDISP".toList⟩,
    ⟨17, "SCEFONT".toList⟩, ⟨18, "SCESCEGE".toList⟩, ⟨19, "SCEINTC".toList⟩,
    ⟨20, "SCEIO".toList⟩, ⟨21, "SCEKERNEL".toList⟩, ⟨22, "SCEMODULE".toList⟩,
    ⟨23, "SCENET".toList⟩, ⟨24, "SCERTC".toList⟩, ⟨25, "SCESAS".toList⟩,
    ⟨26, "SCEUTIL".toList⟩, ⟨27, "SCEMISC".toList⟩ ]

/-- A channel of the registry: `m_shortName`, `enabled`, `level`. -/
structure LogChannel where
  m_shortName : List Char
  enabled : Bool
  level : LOG_LEVELS
deriving DecidableEq, Inhabited

/-- The message handed to the listeners: `level`, `log` (the channel name),
`header` and `msg` (the body). -/
structure LogMessage where
  level : LOG_LEVELS
  log : List Char
  header : List Char
  msg : List Char
deriving DecidableEq, Inhabited

/-- A non-null pointer to a listener object, identified by its address. -/
abbrev LogListener := Nat

/-- The log manager: the channel array `log_`, the listener vector `listeners_` and
the pointers to the built-in sinks (`none` is the null pointer). -/
structure LogManager where
  log_ : LOG_TYPE → LogChannel
  listeners_ : List LogListener
  fileLog_ : Option LogListener
  consoleLog_ : Option LogListener
  debuggerLog_ : Option LogListener
  ringLog_ : Option LogListener

/-- What `LogManager::Log` reads besides its arguments: the time rendered by
`Common::Timer::GetTimeFormatted`, the global `hleCurrentThreadName` (`none` is the
null pointer), and `retryText`, the output of the second `vsnprintf` of line 229.
That call is handed the `va_list` that the first call has already consumed (there is
no `va_copy`), so what it formats is not determined by `format` and the arguments: it
is the first text again only where the format takes no argument or the platform
passes a `va_list` by value. -/
structure LogEnv where
  formattedTime : List Char
  hleCurrentThreadName : Option (List Char)
  retryText : List Char

/-- The glyph table `level_to_char[8] = "-NEWIDV"`, terminator included. -/
def level_to_char : List Char := ['-', 'N', 'E', 'W', 'I', 'D', 'V', '\x00']

/-- The separator `sep` of `LogManager::Log`: a backslash under `_WIN32`, else a slash. -/
def sep (b : Build) : Char := if b.win32 then '\\' else '/'

/-- The C function `strrchr(s, c)`: the index of the last occurrence of `c` in `s`,
`none` for the null pointer. -/
def strrchr (s : List Char) (c : Char) : Option Nat :=
  match s with
  | [] => none
  | x :: xs =>
    match strrchr xs c with
    | some i => some (i + 1)
    | none => if x = c then some 0 else none

/-- The loop `do --fileshort; while (fileshort > file && *fileshort != sep);` entered
with `fileshort` at index `p` of `file`: the index at which it stops (`-1` when it
is entered at index `0`). -/
def scanBack (file : List Char) (c : Char) : Nat → Int
  | 0 => -1
  | k + 1 => if 0 < k ∧ file.getD k '\x00' ≠ c then scanBack file c k else (k : Int)

/-- Lines 196-203 of `LogManager::Log`: the value of `file` that is rendered into the
header. -/
def fileShort (b : Build) (file : List Char) : List Char :=
  match strrchr file (sep b) with
  | none => file
  | some p =>
    let fileshort := scanBack file (sep b) p
    if fileshort ≠ 0 then file.drop (fileshort + 1).toNat else file

/-- The C function `snprintf(buf, size, ...)` on a buffer of `size` bytes: the string
left in the buffer when the formatted output is `text` (at most `size - 1`
characters of it). -/
def snprintf (size : Nat) (text : List Char) : List Char := text.take (size - 1)

/-- The conversion `%-12.12s`: at most twelve characters, padded with blanks on the
right to twelve. -/
def pad12 (s : List Char) : List Char :=
  s.take 12 ++ List.replicate (12 - (s.take 12).length) ' '

/-- The conversion `%d`. -/
def fmtInt (n : Int) : List Char := (toString n).toList

/-- Lines 211-222 of `LogManager::Log`: the header, in its two formats. -/
def formatHeader (b : Build) (env : LogEnv) (level : LOG_LEVELS) (shortName file : List Char)
    (line : Int) : List Char :=
  let glyph := level_to_char.getD level.toNat '\x00'
  match env.hleCurrentThreadName with
  | some thread =>
    snprintf b.headerSize
      (env.formattedTime ++ [' '] ++ pad12 thread ++ [' ', glyph, '['] ++ shortName ++
        [']', ':', ' '] ++ file ++ [':'] ++ fmtInt line)
  | none =>
    snprintf b.headerSize
      (env.formattedTime ++ [' '] ++ file ++ [':'] ++ fmtInt line ++ [' ', glyph, '['] ++
        shortName ++ [']', ':'])

/-- The C function `vsnprintf(buf, size, format, args)` on a buffer holding `buf`
(`size` is its length), when the formatted output is `text`: the buffer afterwards
(at most `size - 1` characters of `text`, then the terminator, the rest untouched)
and the return value, the length of the whole of `text`. -/
def vsnprintf (buf : List Char) (text : List Char) : List Char × Nat :=
  let k := min text.length (buf.length - 1)
  (if buf.length = 0 then buf else text.take k ++ ['\x00'] ++ buf.drop (k + 1), text.length)

/-- The C function `memcpy(dst, src, n)`: the first `n` bytes of `dst` replaced by those
of `src`. -/
def memcpy (dst src : List Char) (n : Nat) : List Char := src.take n ++ dst.drop n

/-- The value of `sizeof(msgBuf)` for `char msgBuf[1024]`. -/
def sizeofMsgBuf : Nat := 1024

/-- Lines 224-234 of `LogManager::Log`: the body `message.msg`, when the formatted
output of `format` and `args` is `text` at the first `vsnprintf` and `retryText` at
the second one, which runs on the consumed `va_list` (see `LogEnv`).  The stack
buffer `msgBuf` starts out uninitialised; it is read only where `vsnprintf` has
written. -/
def formatBody (retryText text : List Char) : List Char :=
  let msgBuf := List.replicate sizeofMsgBuf '\x00'
  let r := vsnprintf msgBuf text
  let msgBuf := r.1
  let neededBytes := r.2
  let msg :=
    if neededBytes > sizeofMsgBuf then
      (vsnprintf (List.replicate (neededBytes + 1) '\x00') retryText).1
    else
      memcpy (List.replicate (neededBytes + 1) '\x00') msgBuf neededBytes
  msg.set (msg.length - 1) '\n'

namespace LogManager

/-- The method `LogManager::IsEnabled`. -/
def IsEnabled (m : LogManager) (level : LOG_LEVELS) (type : LOG_TYPE) : Bool :=
  let log := m.log_ type
  if level > log.level || !log.enabled then false else true

/-- The message that `LogManager::Log` builds in lines 187-234. -/
def buildMessage (b : Build) (env : LogEnv) (log : LogChannel) (level : LOG_LEVELS)
    (file : List Char) (line : Int) (text : List Char) : LogMessage :=
  { level := level
    log := log.m_shortName
    header := formatHeader b env level log.m_shortName (fileShort b file) line
    msg := formatBody env.retryText text }

/-- The method `LogManager::Log`, when the formatted output of `format` and `args` is
`text`: `none` is the early return of line 185, `some calls` lists the calls
`iter->Log(message)` of lines 237-239 in the order in which they are made. -/
def Log (b : Build) (env : LogEnv) (m : LogManager) (level : LOG_LEVELS) (type : LOG_TYPE)
    (file : List Char) (line : Int) (text : List Char) :
    Option (List (LogListener × LogMessage)) :=
  let log := m.log_ type
  if level > log.level || !log.enabled then none
  else
    let message := buildMessage b env log level file line text
    some (m.listeners_.map (fun iter => (iter, message)))

/-- The method `LogManager::AddListener`; `none` is the null pointer. -/
def AddListener (m : LogManager) (listener : Option LogListener) : LogManager :=
  match listener with
  | none => m
  | some l => { m with listeners_ := m.listeners_ ++ [l] }

/-- The method `LogManager::RemoveListener`: `std::find` then `erase`, which removes
the first occurrence. -/
def RemoveListener (m : LogManager) (listener : Option LogListener) : LogManager :=
  match listener with
  | none => m
  | some l => { m with listeners_ := m.listeners_.erase l }

end LogManager

/-- Modelled from the spec: a value stored in a section of the absent `IniFile`, a
boolean or an integer. -/
inductive IniValue where
  | bool (b : Bool)
  | int (i : Int)
deriving DecidableEq, Inhabited

/-- Modelled from the spec: the entries of an `IniFile::Section` (absent from the
sources), a key-value store. -/
abbrev IniSection := List (List Char × IniValue)

namespace IniSection

/-- Modelled from the spec: the value stored under `key`, if any. -/
def lookup : IniSection → List Char → Option IniValue
  | [], _ => none
  | (k, v) :: rest, key => if k = key then some v else lookup rest key

/-- Modelled from the spec: `Section::Set(key, value)` stores `value` under `key`,
replacing what was stored under it. -/
def Set : IniSection → List Char → IniValue → IniSection
  | [], key, v => [(key, v)]
  | (k, w) :: rest, key, v => if k = key then (key, v) :: rest else (k, w) :: Set rest key v

/-- Modelled from the spec: `Section::Get(key, &value, defaultValue)` for a boolean:
the stored boolean, `defaultValue` when the key is absent. -/
def GetBool (s : IniSection) (key : List Char) (defaultValue : Bool) : Bool :=
  match s.lookup key with
  | some (.bool b) => b
  | _ => defaultValue

/-- Modelled from the spec: `Section::Get(key, &value, defaultValue)` for an integer:
the stored integer, `defaultValue` when the key is absent. -/
def GetInt (s : IniSection) (key : List Char) (defaultValue : Int) : Int :=
  match s.lookup key with
  | some (.int i) => i
  | _ => defaultValue

end IniSection

/-- Modelled from the spec: `truncate_cpy(dest, src)` of the absent `StringUtils.h`
copies `src` into the array `dest` of `size` bytes, cut to `size - 1` characters. -/
def truncate_cpy (size : Nat) (src : List Char) : List Char := src.take (size - 1)

namespace LogManager

/-- The key `std::string(log_[i].m_shortName) + "Enabled"`. -/
def enabledKey (c : LogChannel) : List Char := c.m_shortName ++ "Enabled".toList

/-- The key `std::string(log_[i].m_shortName) + "Level"`. -/
def levelKey (c : LogChannel) : List Char := c.m_shortName ++ "Level".toList

/-- One turn of the loop of `LogManager::SaveConfig`. -/
def saveStep (m : LogManager) (sec : IniSection) (i : LOG_TYPE) : IniSection :=
  (sec.Set (enabledKey (m.log_ i)) (.bool (m.log_ i).enabled)).Set
    (levelKey (m.log_ i)) (.int (m.log_ i).level)

/-- The method `LogManager::SaveConfig`: the section afterwards. -/
def SaveConfig (m : LogManager) (sec : IniSection) : IniSection :=
  (List.finRange NUMBER_OF_LOGS).foldl (saveStep m) sec

/-- One turn of the loop of `LogManager::LoadConfig`. -/
def loadStep (sec : IniSection) (debugDefaults : Bool) (m : LogManager) (i : LOG_TYPE) :
    LogManager :=
  let enabled := sec.GetBool (enabledKey (m.log_ i)) true
  let level := sec.GetInt (levelKey (m.log_ i)) (if debugDefaults then LDEBUG else LERROR)
  { m with log_ := Function.update m.log_ i { m.log_ i with enabled := enabled, level := level } }

/-- The method `LogManager::LoadConfig`. -/
def LoadConfig (m : LogManager) (sec : IniSection) (debugDefaults : Bool) : LogManager :=
  (List.finRange NUMBER_OF_LOGS).foldl (loadStep sec debugDefaults) m

end LogManager

/-- The constructor `LogManager::LogManager`.  The objects it allocates with `new` are
given by their addresses.  The rows of `logTable` are in the order of the
enumeration, so the check that reports "Bad logtable" never fires; the debugger
listener is never attached, because `LOG_MSC_OUTPUTDEBUG` is `false`. -/
def LogManager.ctor (b : Build) (newFile newConsole newDebugger newRing : LogListener) :
    LogManager :=
  let log_ := logTable.foldl
    (fun (log_ : LOG_TYPE → LogChannel) e =>
      Function.update log_ e.logType
        { m_shortName := truncate_cpy b.shortNameSize e.name
          enabled := true
          level := if b.debug then LDEBUG else LINFO })
    (fun _ => default)
  let desktop := !b.mobile || b.debug
  let m : LogManager :=
    { log_ := log_
      listeners_ := []
      fileLog_ := if desktop then some newFile else none
      consoleLog_ := if desktop then some newConsole else none
      debuggerLog_ := if desktop then some newDebugger else none
      ringLog_ := some newRing }
  if desktop then
    ((m.AddListener m.fileLog_).AddListener m.consoleLog_).AddListener m.ringLog_
  else m

/-- The ring buffer listener: the array `messages_` of `MAX_LOGS` slots, the write
cursor `curMessage_`, the running total `count_` and the flag `enabled_`.
Modelled from the spec: the absent header `LogManager.h` declares the fields; the
total "never wraps", so it is an unbounded integer. -/
structure RingbufferLogListener where
  messages_ : List LogMessage
  curMessage_ : Int
  count_ : Int
  enabled_ : Bool

namespace RingbufferLogListener

/-- Modelled from the spec: the constructor of the absent header `LogManager.h`; a
new ring buffer has `MAX_LOGS` empty slots, the cursor and the total at zero,
and is not enabled. -/
def fresh (MAX_LOGS : Nat) : RingbufferLogListener :=
  { messages_ := List.replicate MAX_LOGS default, curMessage_ := 0, count_ := 0, enabled_ := false }

/-- Modelled from the spec: `SetEnabled` of the absent header `LogManager.h`. -/
def SetEnabled (r : RingbufferLogListener) (enable : Bool) : RingbufferLogListener :=
  { r with enabled_ := enable }

/-- The method `RingbufferLogListener::Log`; `MAX_LOGS` is the capacity declared in the
absent header. -/
def Log (MAX_LOGS : Nat) (r : RingbufferLogListener) (message : LogMessage) :
    RingbufferLogListener :=
  if !r.enabled_ then r
  else
    let messages_ := r.messages_.set r.curMessage_.toNat message
    let curMessage_ := r.curMessage_ + 1
    let curMessage_ := if curMessage_ ≥ (MAX_LOGS : Int) then curMessage_ - MAX_LOGS else curMessage_
    { r with messages_ := messages_, curMessage_ := curMessage_, count_ := r.count_ + 1 }

/-- A call made on a ring buffer listener. -/
inductive Call where
  | log (message : LogMessage)
  | setEnabled (enable : Bool)

/-- The ring buffer after one call. -/
def call (MAX_LOGS : Nat) (r : RingbufferLogListener) : Call → RingbufferLogListener
  | .log message => r.Log MAX_LOGS message
  | .setEnabled enable => r.SetEnabled enable

/-- The slots read circularly, starting at the write cursor. -/
def readCircular (MAX_LOGS : Nat) (r : RingbufferLogListener) : List LogMessage :=
  (List.range MAX_LOGS).map
    (fun j => r.messages_.getD ((r.curMessage_.toNat + j) % MAX_LOGS) default)

/-- The invariant of the write cursor: `0 <= curMessage_ < MAX_LOGS`, and the array has
`MAX_LOGS` slots. -/
def CursorInBounds (MAX_LOGS : Nat) (r : RingbufferLogListener) : Prop :=
  0 ≤ r.curMessage_ ∧ r.curMessage_ < MAX_LOGS ∧ r.messages_.length = MAX_LOGS

end RingbufferLogListener

/-- The ring buffer after the messages `msgs` were logged, in this order, into a newly
constructed one that was enabled. -/
def RingbufferLogListener.logAll (MAX_LOGS : Nat) (msgs : List LogMessage) :
    RingbufferLogListener :=
  msgs.foldl (RingbufferLogListener.Log MAX_LOGS)
    ((RingbufferLogListener.fresh MAX_LOGS).SetEnabled true)

/-- A message whose body is the text `s`, for examples. -/
def sampleMessage (s : String) : LogMessage :=
  { level := LINFO, log := "SYSTEM".toList, header := [], msg := s.toList }

/-! ## Listener objects, the global switch and the file sink -/

/-- Modelled from the spec: the stream `m_logfile` of a file sink (`std::ofstream`, of
the standard library): the path it was opened on, whether it is in a good state
(false when the file failed to open) and the text appended through it so far. -/
structure OFStream where
  path : List Char
  good : Bool
  written : List Char
deriving DecidableEq, Inhabited

/-- The file sink: the stream `m_logfile` and the flag of the base class `LogListener`
that `SetEnabled` sets.  Modelled from the spec: the absent header `LogManager.h`
declares the fields. -/
structure FileLogListener where
  m_logfile : OFStream
  m_enable : Bool
deriving DecidableEq, Inhabited

namespace FileLogListener

/-- The constructor `FileLogListener::FileLogListener(filename)`: it opens the stream on
`filename` in append mode, which succeeds or not (`opens`), and enables the sink. -/
def ctor (filename : List Char) (opens : Bool) : FileLogListener :=
  { m_logfile := { path := filename, good := opens, written := [] }, m_enable := true }

/-- Modelled from the spec: `IsEnabled` of the absent header `LogManager.h`. -/
def IsEnabled (f : FileLogListener) : Bool := f.m_enable

/-- Modelled from the spec: `IsValid` of the absent header `LogManager.h`, false when
the file failed to open. -/
def IsValid (f : FileLogListener) : Bool := f.m_logfile.good

/-- The method `FileLogListener::Log`. -/
def Log (f : FileLogListener) (message : LogMessage) : FileLogListener :=
  if !f.IsEnabled || !f.IsValid then f
  else
    { f with
      m_logfile :=
        { f.m_logfile with
          written := f.m_logfile.written ++ message.header ++ [' '] ++ message.msg } }

end FileLogListener

/-- The debugger sink: the text handed to the debugger so far. -/
structure DebuggerLogListener where
  output : List Char
deriving DecidableEq, Inhabited

/-- The method `DebuggerLogListener::Log`: under `_MSC_VER` (`msc`) it hands
`message.msg.c_str()`, the body up to its first NUL, to the debugger; otherwise it
does nothing. -/
def DebuggerLogListener.Log (msc : Bool) (d : DebuggerLogListener) (message : LogMessage) :
    DebuggerLogListener :=
  if msc then { d with output := d.output ++ message.msg.takeWhile (fun c => c ≠ '\x00') }
  else d

deriving instance DecidableEq for RingbufferLogListener

/-- A listener object.  Modelled from the spec: `other` is a listener whose class is
not in the sources (the console sink, a listener of the application); of it the
model keeps the messages it was handed. -/
inductive ListenerObj where
  | file (f : FileLogListener)
  | debugger (d : DebuggerLogListener)
  | ring (r : RingbufferLogListener)
  | other (received : List LogMessage)
deriving DecidableEq

/-- The virtual call `listener->Log(message)`. -/
def ListenerObj.Log (msc : Bool) (MAX_LOGS : Nat) (o : ListenerObj) (message : LogMessage) :
    ListenerObj :=
  match o with
  | .file f => .file (f.Log message)
  | .debugger d => .debugger (d.Log msc message)
  | .ring r => .ring (r.Log MAX_LOGS message)
  | .other received => .other (received ++ [message])

/-- Whether the object is a file sink. -/
def ListenerObj.isFile : ListenerObj → Bool
  | .file _ => true
  | _ => false

/-- The listener objects that are alive, by address; `none` where no object lives
(never allocated, or destroyed by `delete`). -/
abbrev Heap := LogListener → Option ListenerObj

/-- Whether a file sink lives at the address `a`. -/
def Heap.isFileAt (heap : Heap) (a : LogListener) : Bool :=
  match heap a with
  | some o => o.isFile
  | none => false

/-- The calls `iter->Log(message)` carried out on the objects, in order.  A call through
a pointer at which no object lives is undefined in the source and changes nothing
here. -/
def deliver (msc : Bool) (MAX_LOGS : Nat) (heap : Heap)
    (calls : List (LogListener × LogMessage)) : Heap :=
  calls.foldl
    (fun h c => Function.update h c.1 ((h c.1).map fun o => o.Log msc MAX_LOGS c.2)) heap

namespace LogManager

/-- The method `LogManager::Log` with its effect on the listener objects: the manager
afterwards, which it does not write, and the objects afterwards. -/
def runLog (b : Build) (msc : Bool) (MAX_LOGS : Nat) (env : LogEnv) (m : LogManager)
    (heap : Heap) (level : LOG_LEVELS) (type : LOG_TYPE) (file : List Char) (line : Int)
    (text : List Char) : LogManager × Heap :=
  (m, deliver msc MAX_LOGS heap ((Log b env m level type file line text).getD []))

/-- The method `LogManager::ChangeFileLog`; `filename` is `none` for the null pointer,
`newFile` is the address at which `new` places the sink it creates and `opens`
tells whether its file can be opened.  The function describes the call from the
states in which `fileLog_` is null or refers to a sink that is alive: `delete` on a
sink that was destroyed before is undefined in the source, and what the function
returns there (the heap with nothing at that address) says nothing about the
code. -/
def ChangeFileLog (m : LogManager) (heap : Heap) (filename : Option (List Char))
    (newFile : LogListener) (opens : Bool) : LogManager × Heap :=
  let r : LogManager × Heap :=
    match m.fileLog_ with
    | some f => (m.RemoveListener (some f), Function.update heap f none)
    | none => (m, heap)
  match filename with
  | some name =>
    (({ r.1 with fileLog_ := some newFile }).AddListener (some newFile),
      Function.update r.2 newFile (some (.file (FileLogListener.ctor name opens))))
  | none => r

end LogManager

/-- The globals that the free functions read: the switch `g_Config.bEnableLogging` and
the static pointer `LogManager::logManager_` with the manager it points to (`none`
is the null pointer). -/
structure Globals where
  bEnableLogging : Bool
  logManager_ : Option LogManager

/-- The function `GenericLog`: the globals afterwards and the calls made on listeners. -/
def GenericLog (b : Build) (env : LogEnv) (g : Globals) (level : LOG_LEVELS) (type : LOG_TYPE)
    (file : List Char) (line : Int) (text : List Char) :
    Globals × List (LogListener × LogMessage) :=
  if !g.bEnableLogging then (g, [])
  else
    match g.logManager_ with
    | some inst => (g, (inst.Log b env level type file line text).getD [])
    | none => (g, [])

/-- The function `GenericLogEnabled`: the globals afterwards and the answer. -/
def GenericLogEnabled (g : Globals) (level : LOG_LEVELS) (type : LOG_TYPE) : Globals × Bool :=
  match g.logManager_ with
  | some inst => (g, g.bEnableLogging && inst.IsEnabled level type)
  | none => (g, false)

/-- The method `LogManager::Init`: `logManager_ = new LogManager()`; the four addresses
are those of the sinks that the constructor allocates. -/
def LogManager.Init (b : Build) (g : Globals)
    (newFile newConsole newDebugger newRing : LogListener) : Globals :=
  { g with logManager_ := some (LogManager.ctor b newFile newConsole newDebugger newRing) }

/-- The method `LogManager::Shutdown`. -/
def LogManager.Shutdown (g : Globals) : Globals :=
  { g with logManager_ := none }

/-- The C function `isprint` on the characters of the glyph table. -/
def isprint (c : Char) : Bool := 0x20 ≤ c.toNat && c.toNat < 0x7f

/-! ## The touch buttons of the on-screen gamepad (`UI/GamepadEmu.cpp`) -/

/-- A touch event as `MultiTouchButton::Touch` reads it: the pointer `id`, for each flag
constant that the method tests whether its bit is set in `input.flags` (the
constants are declared in an absent header), and `inBounds`, the value of
`bounds_.Contains(input.x, input.y)`. -/
structure TouchInput where
  id : Nat
  flagDown : Bool
  flagMove : Bool
  flagUp : Bool
  flagReleaseAll : Bool
  inBounds : Bool

/-- The button: its 32-bit mask of the pointers that hold it down.  Modelled from the
spec: the absent header `GamepadEmu.h` declares the field. -/
structure MultiTouchButton where
  pointerDownMask_ : Nat

/-- The value `1 << id` in 32 bits. -/
def pointerBit (id : Nat) : Nat := (1 <<< id) % 2 ^ 32

/-- The value `~(1 << id)` in 32 bits. -/
def notPointerBit (id : Nat) : Nat := (2 ^ 32 - 1) ^^^ pointerBit id

/-- The method `MultiTouchButton::Touch`; the call of `GamepadView::Touch` resets the
idle timer, which the mask does not depend on. -/
def MultiTouchButton.Touch (btn : MultiTouchButton) (input : TouchInput) : MultiTouchButton :=
  let mask := btn.pointerDownMask_
  let mask := if input.flagDown && input.inBounds then mask ||| pointerBit input.id else mask
  let mask :=
    if input.flagMove then
      if input.inBounds then mask ||| pointerBit input.id
      else mask &&& notPointerBit input.id
    else mask
  let mask := if input.flagUp then mask &&& notPointerBit input.id else mask
  let mask := if input.flagReleaseAll then 0 else mask
  { btn with pointerDownMask_ := mask }

/-! ## The body of a message -/

theorem vsnprintf_fits (buf text : List Char) (h : text.length < buf.length) :
    ((vsnprintf buf text).1).take text.length = text := by
  have hk : min text.length (buf.length - 1) = text.length := by omega
  have hb : buf.length ≠ 0 := by omega
  simp [vsnprintf, hk, hb, List.take_append_eq_append_take]

theorem formatBody_of_lt (retryText text : List Char) (h : text.length < 1024) :
    formatBody retryText text = text ++ ['\n'] := by
  have hs : sizeofMsgBuf = 1024 := rfl
  have hv := vsnprintf_fits (List.replicate sizeofMsgBuf '\x00') text (by simp; omega)
  simp only [formatBody, memcpy]
  have e : (vsnprintf (List.replicate sizeofMsgBuf '\x00') text).2 = text.length := rfl
  rw [e, if_neg (by omega), hv]
  simp [List.set_append]

theorem formatBody_of_gt (retryText text : List Char) (h : 1024 < text.length)
    (hr : text.length ≤ retryText.length) :
    formatBody retryText text = retryText.take text.length ++ ['\n'] := by
  have hs : sizeofMsgBuf = 1024 := rfl
  simp only [formatBody]
  have e : (vsnprintf (List.replicate sizeofMsgBuf '\x00') text).2 = text.length := rfl
  rw [e, if_pos (by omega)]
  have hk : min retryText.length (text.length + 1 - 1) = text.length := by omega
  have hm : min retryText.length text.length = text.length := by omega
  simp [vsnprintf, hk, hm, List.set_append]

theorem formatBody_of_gt_same (text : List Char) (h : 1024 < text.length) :
    formatBody text text = text ++ ['\n'] := by
  rw [formatBody_of_gt text text h (le_refl _), List.take_length]

theorem formatBody_of_eq (retryText text : List Char) (h : text.length = 1024) :
    formatBody retryText text = text.take 1023 ++ ['\x00', '\n'] := by
  have hs : sizeofMsgBuf = 1024 := rfl
  have h1 : (1023 : Nat) = text.length - 1 := by omega
  rw [h1]
  simp only [formatBody, memcpy]
  have e : (vsnprintf (List.replicate sizeofMsgBuf '\x00') text).2 = text.length := rfl
  rw [e, if_neg (by omega)]
  have hk : min text.length (sizeofMsgBuf - 1) = text.length - 1 := by omega
  have hb : sizeofMsgBuf ≠ 0 := by omega
  have h3 : sizeofMsgBuf - (text.length - 1 + 1) = 0 := by omega
  have h4 : text.length - (text.length - 1) = 1 := by omega
  have h5 : text.length + 1 - text.length = 1 := by omega
  have h6 : min (text.length - 1) text.length = text.length - 1 := by omega
  simp [vsnprintf, hk, hb, h3, h4, h5, h6, List.take_append_eq_append_take, List.set_append]

/-! ## Sample inputs -/

/-- A desktop release build with a header of 64 bytes and channel names of 32 bytes. -/
def sampleBuild : Build :=
  { win32 := false, debug := false, mobile := false, headerSize := 64, shortNameSize := 32 }

/-- A moment without a current thread name. -/
def sampleEnv : LogEnv :=
  { formattedTime := "12:00:00:000".toList, hleCurrentThreadName := none, retryText := [] }

/-- A manager as constructed, with the built-in sinks at the addresses 1 to 4. -/
def sampleManager : LogManager := LogManager.ctor sampleBuild 1 2 3 4

/-- The sample manager with the channel `type` set to `enabled` and `level`. -/
def sampleManagerWith (type : LOG_TYPE) (enabled : Bool) (level : LOG_LEVELS) : LogManager :=
  { sampleManager with
    log_ := Function.update sampleManager.log_ type
      { sampleManager.log_ type with enabled := enabled, level := level } }

/-! ## The severity filter and the dispatch -/

theorem LogManager.log_eq_ite (b : Build) (env : LogEnv) (m : LogManager)
    (level : LOG_LEVELS) (type : LOG_TYPE) (file : List Char) (line : Int) (text : List Char) :
    LogManager.Log b env m level type file line text =
      if (m.log_ type).enabled = true ∧ level ≤ (m.log_ type).level then
        some (m.listeners_.map fun l =>
          (l, LogManager.buildMessage b env (m.log_ type) level file line text))
      else none := by
  unfold LogManager.Log
  by_cases he : (m.log_ type).enabled = true <;> by_cases hl : level ≤ (m.log_ type).level
  · simp [he, hl]
  · simp [he, hl]
  · simp [he, hl]
  · simp [he, hl]

theorem LogManager.isEnabled_eq (m : LogManager) (level : LOG_LEVELS) (type : LOG_TYPE) :
    LogManager.IsEnabled m level type =
      ((m.log_ type).enabled && decide (level ≤ (m.log_ type).level)) := by
  unfold LogManager.IsEnabled
  have hn : ((m.log_ type).level < level) ↔ ¬ level ≤ (m.log_ type).level := not_le.symm
  by_cases he : (m.log_ type).enabled = true <;> by_cases hl : level ≤ (m.log_ type).level
  · simp [he, hl, hn]
  · simp [he, hl, hn]
  · simp [he, hl, hn]
  · simp [he, hl, hn]

/-- C1: `LogManager::Log` hands the message to the attached listeners exactly when the
channel is enabled and the numeric level of the message is at most the level of the
channel: in that case every listener of the list is called with the message, and
otherwise the method returns before any listener is called. -/
theorem log_delivers_iff_enabled_and_le (b : Build) (env : LogEnv) (m : LogManager)
    (level : LOG_LEVELS) (type : LOG_TYPE) (file : List Char) (line : Int) (text : List Char) :
    (LogManager.Log b env m level type file line text =
      if (m.log_ type).enabled = true ∧ level ≤ (m.log_ type).level then
        some (m.listeners_.map fun l =>
          (l, LogManager.buildMessage b env (m.log_ type) level file line text))
      else none) ∧
    ∀ l ∈ m.listeners_,
      ((l, LogManager.buildMessage b env (m.log_ type) level file line text) ∈
          (LogManager.Log b env m level type file line text).getD [] ↔
        ((m.log_ type).enabled = true ∧ level ≤ (m.log_ type).level)) := by
  refine ⟨LogManager.log_eq_ite b env m level type file line text, ?_⟩
  intro l hl
  rw [LogManager.log_eq_ite]
  by_cases hc : (m.log_ type).enabled = true ∧ level ≤ (m.log_ type).level
  · rw [if_pos hc, Option.getD_some]
    exact ⟨fun _ => hc, fun _ => List.mem_map.mpr ⟨l, hl, rfl⟩⟩
  · simp [if_neg hc, hc]

/-- The scenario of the spec: with the threshold at INFO and the channel enabled a
WARNING is delivered and a VERBOSE message is not; once the channel is disabled
not even the most critical level is delivered. -/
theorem log_scenario (env : LogEnv) (file : List Char) (line : Int) (text : List Char) :
    (LogManager.Log sampleBuild env (sampleManagerWith 23 true LINFO) LWARNING 23 file line
        text).isSome = true ∧
    LogManager.Log sampleBuild env (sampleManagerWith 23 true LINFO) LVERBOSE 23 file line
        text = none ∧
    LogManager.Log sampleBuild env (sampleManagerWith 23 false LINFO) LNOTICE 23 file line
        text = none := by
  refine ⟨?_, ?_, ?_⟩ <;>
    simp [LogManager.log_eq_ite, sampleManagerWith, LINFO, LWARNING, LVERBOSE, LNOTICE]

/-- C2: `LogManager::IsEnabled` answers true exactly when `LogManager::Log` gets past
its filter and runs the dispatch loop, which is when the channel is enabled and the
level is at most the level of the channel; for a channel whose flag is false the
answer is false for every level. -/
theorem isEnabled_eq_log_dispatches (b : Build) (env : LogEnv) (m : LogManager)
    (level : LOG_LEVELS) (type : LOG_TYPE) (file : List Char) (line : Int) (text : List Char) :
    LogManager.IsEnabled m level type = (LogManager.Log b env m level type file line text).isSome ∧
    LogManager.IsEnabled m level type =
      ((m.log_ type).enabled && decide (level ≤ (m.log_ type).level)) := by
  refine ⟨?_, LogManager.isEnabled_eq m level type⟩
  rw [LogManager.isEnabled_eq, LogManager.log_eq_ite]
  by_cases he : (m.log_ type).enabled = true <;> by_cases hl : level ≤ (m.log_ type).level
  · simp [he, hl]
  · simp [he, hl]
  · simp [he, hl]
  · simp [he, hl]

/-- C3: at a formatted text of exactly 1024 characters (the size of `msgBuf`) the test
`neededBytes > sizeof(msgBuf)` sends `LogManager::Log` down the fast path, which
copies the 1023 characters that fitted and the terminator: the body is the first
1023 characters, a NUL and the newline, so the last character of the text is lost. -/
theorem formatBody_loses_char_at_1024 (retryText : List Char) :
    formatBody retryText (List.replicate 1024 'a') =
      List.replicate 1023 'a' ++ ['\x00', '\n'] ∧
    formatBody retryText (List.replicate 1024 'a') ≠ List.replicate 1024 'a' ++ ['\n'] := by
  have h : formatBody retryText (List.replicate 1024 'a') =
      List.replicate 1023 'a' ++ ['\x00', '\n'] := by
    rw [formatBody_of_eq _ _ (List.length_replicate _ _), List.take_replicate]
    rfl
  refine ⟨h, ?_⟩
  rw [h]
  intro hc
  have e : List.replicate 1024 'a' = List.replicate 1023 'a' ++ ['a'] :=
    List.replicate_succ' 1023 'a'
  rw [e, List.append_assoc] at hc
  have h2 := List.append_cancel_left hc
  exact absurd h2 (by decide)

/-- The claim C4 fails: a text that ends with a newline is delivered with two newlines
at its end. -/
theorem formatBody_doubles_newline :
    ("hi\n".toList).getLast? = some '\n' ∧ ['\n', '\n'] <:+ formatBody [] "hi\n".toList := by
  rw [formatBody_of_lt _ _ (by decide)]
  decide

/-- C4, amended: for every formatted text shorter than 1024 characters, which is
delivered from the buffer `msgBuf` without a second formatting, the delivered body
is the whole text followed by one newline; the newline is always added after the
text and never replaces its last character, so a text that does not end with a
newline is delivered with exactly one at its end and a text that already ends
with a newline is delivered with two. -/
theorem formatBody_appends_newline (retryText text : List Char) (h : text.length < 1024) :
    formatBody retryText text = text ++ ['\n'] ∧
    (text.getLast? = some '\n' → ['\n', '\n'] <:+ formatBody retryText text) ∧
    (text.getLast? ≠ some '\n' → ¬ ['\n', '\n'] <:+ formatBody retryText text) := by
  have hb := formatBody_of_lt retryText text h
  refine ⟨hb, ?_, ?_⟩
  · intro hl
    obtain ⟨pre, hpre⟩ : ∃ pre, text = pre ++ ['\n'] := by
      rcases List.eq_nil_or_concat text with h0 | ⟨pre, x, hx⟩
      · simp [h0] at hl
      · refine ⟨pre, ?_⟩
        rw [hx, List.concat_eq_append, List.getLast?_concat] at hl
        rw [hx, List.concat_eq_append, Option.some.inj hl]
    rw [hb, hpre]
    exact ⟨pre, by simp⟩
  · intro hl hs
    apply hl
    rw [hb] at hs
    obtain ⟨pre, hpre⟩ := hs
    have h2 : pre ++ ['\n'] = text := by
      have : (pre ++ ['\n']) ++ ['\n'] = text ++ ['\n'] := by simpa using hpre
      exact List.append_cancel_right this
    rw [← h2]
    simp

theorem formatBody_appends_newline_witness :
    "hi".toList.length < 1024 ∧ formatBody [] "hi".toList = "hi".toList ++ ['\n'] :=
  ⟨by decide, (formatBody_appends_newline [] "hi".toList (by decide)).1⟩

/-! ## The ring buffer listener -/

theorem succ_mod_eq_ite (k n : Nat) (hn : 0 < n) :
    (k + 1) % n = if k % n + 1 = n then 0 else k % n + 1 := by
  have hlt := Nat.mod_lt k hn
  rw [Nat.add_mod]
  by_cases h1 : n = 1
  · subst h1; simp [Nat.mod_one]
  · have h2 : 1 % n = 1 := Nat.mod_eq_of_lt (by omega)
    rw [h2]
    split
    · next h => rw [h, Nat.mod_self]
    · next h => exact Nat.mod_eq_of_lt (by omega)

theorem mod_ne_of_close (i k n : Nat) (hik : i < k) (hk : k < i + n) : i % n ≠ k % n := by
  intro h
  have hd : n ∣ k - i := (Nat.modEq_iff_dvd' (le_of_lt hik)).mp h
  have := Nat.le_of_dvd (by omega) hd
  omega

/-- What a ring buffer holds after the messages `msgs` were logged into a new, enabled
one. -/
structure RingbufferLogListener.Holds (MAX_LOGS : Nat) (msgs : List LogMessage)
    (r : RingbufferLogListener) : Prop where
  enabled : r.enabled_ = true
  size : r.messages_.length = MAX_LOGS
  cursor : r.curMessage_ = ((msgs.length % MAX_LOGS : Nat) : Int)
  count : r.count_ = (msgs.length : Int)
  slots : ∀ i, i < msgs.length → msgs.length ≤ i + MAX_LOGS →
    r.messages_[i % MAX_LOGS]? = msgs[i]?

theorem RingbufferLogListener.holds_fresh (MAX_LOGS : Nat) :
    RingbufferLogListener.Holds MAX_LOGS []
      ((RingbufferLogListener.fresh MAX_LOGS).SetEnabled true) := by
  constructor <;> simp [RingbufferLogListener.fresh, RingbufferLogListener.SetEnabled]

theorem RingbufferLogListener.holds_log (MAX_LOGS : Nat) (hM : 0 < MAX_LOGS)
    (msgs : List LogMessage) (r : RingbufferLogListener) (x : LogMessage)
    (h : RingbufferLogListener.Holds MAX_LOGS msgs r) :
    RingbufferLogListener.Holds MAX_LOGS (msgs ++ [x]) (r.Log MAX_LOGS x) := by
  obtain ⟨he, hs, hc, hn, hsl⟩ := h
  have hlt := Nat.mod_lt msgs.length hM
  have hsucc := succ_mod_eq_ite msgs.length MAX_LOGS hM
  generalize msgs.length % MAX_LOGS = c at hc hlt hsucc
  have hidx : r.curMessage_.toNat = c := by omega
  constructor
  · simp [RingbufferLogListener.Log, he]
  · simp [RingbufferLogListener.Log, he, hs]
  · simp only [RingbufferLogListener.Log, he, List.length_append, List.length_singleton,
      hsucc]
    by_cases h1 : c + 1 = MAX_LOGS
    · have h2 : r.curMessage_ + 1 ≥ (MAX_LOGS : Int) := by omega
      simp only [h1, if_true, h2, Bool.not_true, Bool.false_eq_true, if_false]
      omega
    · have h2 : ¬ r.curMessage_ + 1 ≥ (MAX_LOGS : Int) := by omega
      simp only [h1, if_false, h2, Bool.not_true, Bool.false_eq_true]
      omega
  · simp [RingbufferLogListener.Log, he, hn]
  · intro i hi hk
    simp only [List.length_append, List.length_singleton] at hi hk
    simp only [RingbufferLogListener.Log, he, hidx, Bool.not_true, Bool.false_eq_true, if_false]
    by_cases hik : i = msgs.length
    · subst hik
      have hc2 : msgs.length % MAX_LOGS = c := by
        have := succ_mod_eq_ite msgs.length MAX_LOGS hM
        have hl2 := Nat.mod_lt msgs.length hM
        split at this <;> split at hsucc <;> omega
      simp [hc2, hs, hlt]
    · have hi2 : i < msgs.length := by omega
      have hne := mod_ne_of_close i msgs.length MAX_LOGS hi2 (by omega)
      have hc2 : msgs.length % MAX_LOGS = c := by
        have := succ_mod_eq_ite msgs.length MAX_LOGS hM
        have hl2 := Nat.mod_lt msgs.length hM
        split at this <;> split at hsucc <;> omega
      have := hsl i hi2 (by omega)
      rw [hc2] at hne
      simp [List.getElem?_set, Ne.symm hne, this, List.getElem?_append_left hi2]

theorem RingbufferLogListener.holds_foldl (MAX_LOGS : Nat) (hM : 0 < MAX_LOGS)
    (msgs : List LogMessage) :
    RingbufferLogListener.Holds MAX_LOGS msgs (RingbufferLogListener.logAll MAX_LOGS msgs) := by
  unfold RingbufferLogListener.logAll
  induction msgs using List.reverseRecOn with
  | nil => exact RingbufferLogListener.holds_fresh MAX_LOGS
  | append_singleton xs x ih =>
    rw [List.foldl_append]
    exact RingbufferLogListener.holds_log MAX_LOGS hM xs _ x ih

/-- C5: after K messages, K greater than the capacity `MAX_LOGS`, were logged into a
new, enabled ring buffer, the buffer has `MAX_LOGS` slots, the total `count_` is K,
the i-th message is in slot `i mod MAX_LOGS` for every i from `K - MAX_LOGS` up to
K, and the slots read circularly from the write cursor are the `MAX_LOGS` most
recent messages in the order in which they were logged. -/
theorem ring_keeps_most_recent (MAX_LOGS : Nat) (msgs : List LogMessage)
    (hM : 0 < MAX_LOGS) (hK : MAX_LOGS < msgs.length) :
    (RingbufferLogListener.logAll MAX_LOGS msgs).messages_.length = MAX_LOGS ∧
    (RingbufferLogListener.logAll MAX_LOGS msgs).count_ = (msgs.length : Int) ∧
    (∀ i, msgs.length - MAX_LOGS ≤ i → i < msgs.length →
      (RingbufferLogListener.logAll MAX_LOGS msgs).messages_[i % MAX_LOGS]? = msgs[i]?) ∧
    (RingbufferLogListener.logAll MAX_LOGS msgs).readCircular MAX_LOGS =
      msgs.drop (msgs.length - MAX_LOGS) := by
  have h := RingbufferLogListener.holds_foldl MAX_LOGS hM msgs
  generalize RingbufferLogListener.logAll MAX_LOGS msgs = r at h ⊢
  obtain ⟨_, hs, hc, hn, hsl⟩ := h
  refine ⟨hs, hn, fun i h1 h2 => hsl i h2 (by omega), ?_⟩
  apply List.ext_getElem
  · simp [RingbufferLogListener.readCircular]; omega
  · intro j h1 h2
    simp only [RingbufferLogListener.readCircular, List.length_map, List.length_range] at h1
    have hlt : msgs.length - MAX_LOGS + j < msgs.length := by omega
    have hi := hsl (msgs.length - MAX_LOGS + j) hlt (by omega)
    have e : r.curMessage_.toNat = msgs.length % MAX_LOGS := by omega
    have hmod : (r.curMessage_.toNat + j) % MAX_LOGS =
        (msgs.length - MAX_LOGS + j) % MAX_LOGS := by
      have e2 : msgs.length + j = (msgs.length - MAX_LOGS + j) + MAX_LOGS := by omega
      rw [e, Nat.mod_add_mod, e2, Nat.add_mod_right]
    rw [List.getElem?_eq_getElem hlt] at hi
    simp only [RingbufferLogListener.readCircular, List.getElem_map, List.getElem_range,
      List.getElem_drop, List.getD_eq_getElem?_getD, hmod, hi, Option.getD_some]

theorem ring_keeps_most_recent_witness :
    (RingbufferLogListener.logAll 2
        [sampleMessage "a", sampleMessage "b", sampleMessage "c"]).count_ = 3 ∧
    (RingbufferLogListener.logAll 2
        [sampleMessage "a", sampleMessage "b", sampleMessage "c"]).readCircular 2 =
      [sampleMessage "b", sampleMessage "c"] :=
  have h := ring_keeps_most_recent 2 [sampleMessage "a", sampleMessage "b", sampleMessage "c"]
    (by decide) (by decide)
  ⟨h.2.1, h.2.2.2⟩

theorem RingbufferLogListener.cursorInBounds_call (MAX_LOGS : Nat) (r : RingbufferLogListener)
    (c : RingbufferLogListener.Call) (h : RingbufferLogListener.CursorInBounds MAX_LOGS r) :
    RingbufferLogListener.CursorInBounds MAX_LOGS (r.call MAX_LOGS c) := by
  obtain ⟨h0, h1, h2⟩ := h
  cases c with
  | setEnabled enable => exact ⟨h0, h1, h2⟩
  | log message =>
    simp only [RingbufferLogListener.call, RingbufferLogListener.Log]
    by_cases he : r.enabled_ = true
    · simp only [he, Bool.not_true, Bool.false_eq_true, if_false]
      refine ⟨?_, ?_, ?_⟩
      · show (0 : Int) ≤ if r.curMessage_ + 1 ≥ (MAX_LOGS : Int) then _ else _
        split <;> omega
      · show (if r.curMessage_ + 1 ≥ (MAX_LOGS : Int) then _ else _) < (MAX_LOGS : Int)
        split <;> omega
      · simpa using h2
    · simp only [he, Bool.not_false, if_true]
      exact ⟨h0, h1, h2⟩

/-- C6: every sequence of calls on a ring buffer listener, `Log` calls while it is
enabled or disabled with `SetEnabled` calls between them, keeps the write cursor
inside the array: from a state with `0 <= curMessage_ < MAX_LOGS` and `MAX_LOGS`
slots it leads to a state with `0 <= curMessage_ < MAX_LOGS` and `MAX_LOGS` slots. -/
theorem ring_cursor_stays_in_bounds (MAX_LOGS : Nat) (calls : List RingbufferLogListener.Call)
    (r : RingbufferLogListener) (h : RingbufferLogListener.CursorInBounds MAX_LOGS r) :
    RingbufferLogListener.CursorInBounds MAX_LOGS
      (calls.foldl (RingbufferLogListener.call MAX_LOGS) r) := by
  induction calls generalizing r with
  | nil => exact h
  | cons c cs ih =>
    exact ih _ (RingbufferLogListener.cursorInBounds_call MAX_LOGS r c h)

theorem ring_cursor_stays_in_bounds_witness :
    RingbufferLogListener.CursorInBounds 2 (RingbufferLogListener.fresh 2) ∧
    RingbufferLogListener.CursorInBounds 2
      ([RingbufferLogListener.Call.log (sampleMessage "a"),
        RingbufferLogListener.Call.setEnabled true,
        RingbufferLogListener.Call.log (sampleMessage "b"),
        RingbufferLogListener.Call.log (sampleMessage "c"),
        RingbufferLogListener.Call.setEnabled false,
        RingbufferLogListener.Call.log (sampleMessage "d")].foldl
          (RingbufferLogListener.call 2) (RingbufferLogListener.fresh 2)) :=
  ⟨⟨by decide, by decide, by decide⟩,
    ring_cursor_stays_in_bounds 2 _ (RingbufferLogListener.fresh 2)
      ⟨by decide, by decide, by decide⟩⟩

/-! ## Attachment order -/

theorem LogManager.foldl_addListener (added : List (Option LogListener)) (m : LogManager) :
    (added.foldl LogManager.AddListener m).log_ = m.log_ ∧
    (added.foldl LogManager.AddListener m).listeners_ =
      m.listeners_ ++ added.filterMap id := by
  induction added generalizing m with
  | nil => simp
  | cons a as ih =>
    cases a with
    | none => simpa [LogManager.AddListener] using ih m
    | some l =>
      have h := ih (m.AddListener (some l))
      rw [List.foldl_cons, h.1, h.2]
      simp [LogManager.AddListener]

/-- C7: for a message that passes the filter of its channel, `LogManager::Log` calls
`Log(message)` once on every listener of the list, in the order of the list, which
is the order in which `AddListener` attached them (a null pointer attaches
nothing), and every call gets the same completed message. -/
theorem log_calls_listeners_in_attachment_order (b : Build) (env : LogEnv) (m : LogManager)
    (added : List (Option LogListener)) (level : LOG_LEVELS) (type : LOG_TYPE)
    (file : List Char) (line : Int) (text : List Char)
    (h : LogManager.IsEnabled m level type = true) :
    LogManager.Log b env (added.foldl LogManager.AddListener m) level type file line text =
      some ((m.listeners_ ++ added.filterMap id).map fun l =>
        (l, LogManager.buildMessage b env (m.log_ type) level file line text)) := by
  obtain ⟨h1, h2⟩ := LogManager.foldl_addListener added m
  have hf := LogManager.isEnabled_eq m level type
  rw [h] at hf
  have hc : (m.log_ type).enabled = true ∧ level ≤ (m.log_ type).level := by
    simpa using hf.symm
  rw [LogManager.log_eq_ite, h1, h2, if_pos hc]

theorem log_calls_listeners_in_attachment_order_witness :
    LogManager.IsEnabled sampleManager LNOTICE 0 = true ∧
    LogManager.Log sampleBuild sampleEnv
        ([some 7, none, some 9].foldl LogManager.AddListener sampleManager)
        LNOTICE 0 "a/b/c.cpp".toList 10 "hi".toList =
      some (([1, 2, 4] ++ [7, 9]).map fun l =>
        (l, LogManager.buildMessage sampleBuild sampleEnv (sampleManager.log_ 0) LNOTICE
          "a/b/c.cpp".toList 10 "hi".toList)) :=
  ⟨by decide,
    log_calls_listeners_in_attachment_order sampleBuild sampleEnv sampleManager
      [some 7, none, some 9] LNOTICE 0 "a/b/c.cpp".toList 10 "hi".toList (by decide)⟩

/-! ## The configuration round trip -/

theorem IniSection.lookup_Set_same (s : IniSection) (key : List Char) (v : IniValue) :
    (s.Set key v).lookup key = some v := by
  induction s with
  | nil => simp [IniSection.Set, IniSection.lookup]
  | cons e rest ih =>
    obtain ⟨k, w⟩ := e
    by_cases h : k = key
    · simp [IniSection.Set, IniSection.lookup, h]
    · simp [IniSection.Set, IniSection.lookup, h, ih]

theorem IniSection.lookup_Set_ne (s : IniSection) (key key2 : List Char) (v : IniValue)
    (hne : key ≠ key2) : (s.Set key v).lookup key2 = s.lookup key2 := by
  induction s with
  | nil => simp [IniSection.Set, IniSection.lookup, hne]
  | cons e rest ih =>
    obtain ⟨k, w⟩ := e
    by_cases h : k = key
    · subst h
      simp [IniSection.Set, IniSection.lookup, hne]
    · by_cases h2 : k = key2
      · subst h2
        simp [IniSection.Set, IniSection.lookup, h]
      · simp [IniSection.Set, IniSection.lookup, h, h2, ih]

theorem LogManager.enabledKey_ne_levelKey (c d : LogChannel) :
    LogManager.enabledKey c ≠ LogManager.levelKey d := by
  intro h
  have h2 := congrArg List.getLast? h
  simp [LogManager.enabledKey, LogManager.levelKey, List.getLast?_append] at h2

theorem LogManager.enabledKey_inj (c d : LogChannel)
    (h : LogManager.enabledKey c = LogManager.enabledKey d) : c.m_shortName = d.m_shortName :=
  List.append_cancel_right h

theorem LogManager.levelKey_inj (c d : LogChannel)
    (h : LogManager.levelKey c = LogManager.levelKey d) : c.m_shortName = d.m_shortName :=
  List.append_cancel_right h

/-- The channel names of `m` are pairwise different. -/
def LogManager.DistinctNames (m : LogManager) : Prop :=
  ∀ i j : LOG_TYPE, (m.log_ i).m_shortName = (m.log_ j).m_shortName → i = j

theorem LogManager.saveConfig_untouched (m : LogManager) (key : List Char) (is : List LOG_TYPE)
    (sec : IniSection)
    (h : ∀ i ∈ is, LogManager.enabledKey (m.log_ i) ≠ key ∧ LogManager.levelKey (m.log_ i) ≠ key) :
    (is.foldl (LogManager.saveStep m) sec).lookup key = sec.lookup key := by
  induction is generalizing sec with
  | nil => rfl
  | cons j rest ih =>
    rw [List.foldl_cons, ih _ (fun i hi => h i (List.mem_cons_of_mem _ hi))]
    have hj := h j (List.mem_cons_self _ _)
    rw [LogManager.saveStep, IniSection.lookup_Set_ne _ _ _ _ hj.2,
      IniSection.lookup_Set_ne _ _ _ _ hj.1]

theorem LogManager.saveConfig_stored (m : LogManager) (hm : m.DistinctNames) (i : LOG_TYPE)
    (is : List LOG_TYPE) (hnd : is.Nodup) (hi : i ∈ is) (sec : IniSection) :
    (is.foldl (LogManager.saveStep m) sec).lookup (LogManager.enabledKey (m.log_ i)) =
      some (.bool (m.log_ i).enabled) ∧
    (is.foldl (LogManager.saveStep m) sec).lookup (LogManager.levelKey (m.log_ i)) =
      some (.int (m.log_ i).level) := by
  induction is generalizing sec with
  | nil => simp at hi
  | cons j rest ih =>
    rw [List.nodup_cons] at hnd
    rw [List.foldl_cons]
    by_cases hij : i = j
    · subst hij
      have hfree : ∀ k ∈ rest, m.log_ k ≠ m.log_ i ∧ (m.log_ k).m_shortName ≠ (m.log_ i).m_shortName := by
        intro k hk
        have hne : (m.log_ k).m_shortName ≠ (m.log_ i).m_shortName := by
          intro he
          exact hnd.1 (hm k i he ▸ hk)
        exact ⟨fun he => hne (by rw [he]), hne⟩
      constructor
      · rw [LogManager.saveConfig_untouched m _ rest _ (fun k hk =>
          ⟨fun he => (hfree k hk).2 (LogManager.enabledKey_inj _ _ he),
           fun he => LogManager.enabledKey_ne_levelKey _ _ he.symm⟩)]
        rw [LogManager.saveStep,
          IniSection.lookup_Set_ne _ _ _ _ (LogManager.enabledKey_ne_levelKey _ _).symm,
          IniSection.lookup_Set_same]
      · rw [LogManager.saveConfig_untouched m _ rest _ (fun k hk =>
          ⟨fun he => LogManager.enabledKey_ne_levelKey _ _ he,
           fun he => (hfree k hk).2 (LogManager.levelKey_inj _ _ he)⟩)]
        rw [LogManager.saveStep, IniSection.lookup_Set_same]
    · have hi2 : i ∈ rest := by
        rcases List.mem_cons.mp hi with h | h
        · exact absurd h hij
        · exact h
      exact ih hnd.2 hi2 _

/-- What `LoadConfig` makes of the channel `c`. -/
def LogManager.loaded (sec : IniSection) (debugDefaults : Bool) (c : LogChannel) : LogChannel :=
  { c with
    enabled := sec.GetBool (LogManager.enabledKey c) true
    level := sec.GetInt (LogManager.levelKey c) (if debugDefaults then LDEBUG else LERROR) }

theorem LogManager.loadConfig_foldl (sec : IniSection) (debugDefaults : Bool)
    (is : List LOG_TYPE) (hnd : is.Nodup) (m : LogManager) (i : LOG_TYPE) :
    (is.foldl (LogManager.loadStep sec debugDefaults) m).log_ i =
      if i ∈ is then LogManager.loaded sec debugDefaults (m.log_ i) else m.log_ i := by
  induction is generalizing m with
  | nil => simp
  | cons j rest ih =>
    rw [List.nodup_cons] at hnd
    rw [List.foldl_cons, ih hnd.2]
    by_cases hij : i = j
    · subst hij
      simp [hnd.1, LogManager.loadStep, LogManager.loaded]
    · simp [hij, LogManager.loadStep, Function.update_noteq hij]

theorem LogManager.loadConfig_log (sec : IniSection) (debugDefaults : Bool) (m : LogManager)
    (i : LOG_TYPE) :
    (m.LoadConfig sec debugDefaults).log_ i = LogManager.loaded sec debugDefaults (m.log_ i) := by
  rw [LogManager.LoadConfig, LogManager.loadConfig_foldl sec debugDefaults _ (List.nodup_finRange _),
    if_pos (List.mem_finRange i)]

/-- Every channel of `m` carries the name that `logTable` gives it. -/
def LogManager.NamedByTable (m : LogManager) : Prop :=
  ∀ e ∈ logTable, (m.log_ e.logType).m_shortName = e.name

set_option maxRecDepth 100000 in
theorem logTable_covers : ∀ i : LOG_TYPE, ∃ e ∈ logTable, e.logType = i := by decide

set_option maxRecDepth 100000 in
theorem logTable_names_distinct :
    ∀ e1 ∈ logTable, ∀ e2 ∈ logTable, e1.name = e2.name → e1.logType = e2.logType := by
  decide

theorem LogManager.NamedByTable.distinct {m : LogManager} (h : m.NamedByTable) :
    m.DistinctNames := by
  intro i j hij
  obtain ⟨e1, he1, rfl⟩ := logTable_covers i
  obtain ⟨e2, he2, rfl⟩ := logTable_covers j
  rw [h e1 he1, h e2 he2] at hij
  exact logTable_names_distinct e1 he1 e2 he2 hij

theorem LogManager.NamedByTable.same {m m2 : LogManager} (h : m.NamedByTable)
    (h2 : m2.NamedByTable) (i : LOG_TYPE) :
    (m2.log_ i).m_shortName = (m.log_ i).m_shortName := by
  obtain ⟨e, he, rfl⟩ := logTable_covers i
  rw [h e he, h2 e he]

theorem LogManager.ctor_log (b : Build) (newFile newConsole newDebugger newRing : LogListener) :
    (LogManager.ctor b newFile newConsole newDebugger newRing).log_ =
      logTable.foldl
        (fun (log_ : LOG_TYPE → LogChannel) e =>
          Function.update log_ e.logType
            { m_shortName := truncate_cpy b.shortNameSize e.name
              enabled := true
              level := if b.debug then LDEBUG else LINFO })
        (fun _ => default) := by
  unfold LogManager.ctor
  by_cases h : (!b.mobile || b.debug) = true
  · simp only [h, if_true, LogManager.AddListener]
  · simp only [h, if_false]
    rfl

set_option maxRecDepth 100000 in
theorem logTable_names_short : ∀ e ∈ logTable, e.name.length ≤ 9 := by decide

set_option maxRecDepth 100000 in
theorem LogManager.ctor_namedByTable (b : Build) (hb : 10 ≤ b.shortNameSize)
    (newFile newConsole newDebugger newRing : LogListener) :
    (LogManager.ctor b newFile newConsole newDebugger newRing).NamedByTable := by
  intro e he
  have hlen := logTable_names_short e he
  have ht : truncate_cpy b.shortNameSize e.name = e.name :=
    List.take_of_length_le (by omega)
  rw [LogManager.ctor_log]
  rw [← ht]
  simp only [logTable, List.mem_cons, List.mem_singleton, List.not_mem_nil, or_false] at he
  rcases he with h | h | h | h | h | h | h | h | h | h | h | h | h | h | h | h | h | h | h | h |
    h | h | h | h | h | h | h | h <;> (subst h; rfl)

/-- C8: let every channel carry the name that `logTable` gives it, as the constructor
sets it.  Whatever the enabled flags and levels of the channels are,
`SaveConfig` into a section (whatever it held before) followed by `LoadConfig` from
that section, with either value of `debugDefaults` and whatever the flags and levels
have become in between, leaves every one of the `NUMBER_OF_LOGS` channels with the
enabled flag and the level it had before `SaveConfig`. -/
theorem save_then_load_restores (m m2 : LogManager) (sec : IniSection) (debugDefaults : Bool)
    (hm : m.NamedByTable) (hm2 : m2.NamedByTable) (i : LOG_TYPE) :
    (m2.LoadConfig (m.SaveConfig sec) debugDefaults).log_ i = m.log_ i := by
  have hs := LogManager.saveConfig_stored m hm.distinct i (List.finRange NUMBER_OF_LOGS)
    (List.nodup_finRange _) (List.mem_finRange i) sec
  have hn := LogManager.NamedByTable.same hm hm2 i
  rw [LogManager.loadConfig_log]
  have hk1 : LogManager.enabledKey (m2.log_ i) = LogManager.enabledKey (m.log_ i) := by
    simp [LogManager.enabledKey, hn]
  have hk2 : LogManager.levelKey (m2.log_ i) = LogManager.levelKey (m.log_ i) := by
    simp [LogManager.levelKey, hn]
  simp only [LogManager.loaded, hk1, hk2, IniSection.GetBool, IniSection.GetInt,
    LogManager.SaveConfig, hs.1, hs.2, hn]

set_option maxRecDepth 100000 in
theorem save_then_load_restores_witness :
    (sampleManagerWith 5 false LVERBOSE).NamedByTable ∧ sampleManager.NamedByTable ∧
    (sampleManager.LoadConfig ((sampleManagerWith 5 false LVERBOSE).SaveConfig []) true).log_ 5 =
      { m_shortName := "G3D".toList, enabled := false, level := LVERBOSE } :=
  ⟨show ∀ e ∈ logTable, _ from by decide, show ∀ e ∈ logTable, _ from by decide,
    (save_then_load_restores (sampleManagerWith 5 false LVERBOSE) sampleManager [] true
      (show ∀ e ∈ logTable, _ from by decide) (show ∀ e ∈ logTable, _ from by decide) 5).trans
      (by decide)⟩

/-- The claim C9 fails: with no key in the section and `debugDefaults` true the level
becomes `LDEBUG`, which is not the verbose level. -/
theorem load_defaults_not_verbose :
    ((sampleManager.LoadConfig [] true).log_ 0).level = LDEBUG ∧
    ((sampleManager.LoadConfig [] true).log_ 0).level ≠ LVERBOSE := by
  rw [LogManager.loadConfig_log]
  decide

/-- C9, amended: for every channel whose keys `<ChannelName>Enabled` and
`<ChannelName>Level` are absent from the section, `LoadConfig` sets the enabled flag
to true and the level to `LDEBUG` (debug, one step short of verbose) when
`debugDefaults` is true and to `LERROR` (errors only) when it is false; the name of
the channel is left as it was. -/
theorem load_defaults_for_absent_keys (m : LogManager) (sec : IniSection) (debugDefaults : Bool)
    (i : LOG_TYPE)
    (h1 : sec.lookup ((m.log_ i).m_shortName ++ "Enabled".toList) = none)
    (h2 : sec.lookup ((m.log_ i).m_shortName ++ "Level".toList) = none) :
    (m.LoadConfig sec debugDefaults).log_ i =
      { m_shortName := (m.log_ i).m_shortName
        enabled := true
        level := if debugDefaults then LDEBUG else LERROR } := by
  rw [LogManager.loadConfig_log]
  simp only [LogManager.loaded, IniSection.GetBool, IniSection.GetInt, LogManager.enabledKey,
    LogManager.levelKey, h1, h2]

set_option maxRecDepth 100000 in
theorem load_defaults_for_absent_keys_witness :
    (sampleManager.LoadConfig [("BOOTEnabled".toList, IniValue.bool false)] false).log_ 0 =
      { m_shortName := "SYSTEM".toList, enabled := true, level := LERROR } :=
  (load_defaults_for_absent_keys sampleManager [("BOOTEnabled".toList, IniValue.bool false)]
    false 0 (by decide) (by decide)).trans (by decide)

/-! ## The file name of the header -/

theorem strrchr_none (s : List Char) (c : Char) (h : strrchr s c = none) : c ∉ s := by
  induction s with
  | nil => simp
  | cons x xs ih =>
    unfold strrchr at h
    cases hx : strrchr xs c with
    | some i => simp [hx] at h
    | none =>
      simp only [hx] at h
      by_cases hc : x = c
      · simp [hc] at h
      · simp only [List.mem_cons, not_or]
        exact ⟨fun e => hc e.symm, ih hx⟩

theorem strrchr_some (s : List Char) (c : Char) (p : Nat) (h : strrchr s c = some p) :
    ∃ A B, s = A ++ c :: B ∧ A.length = p ∧ c ∉ B := by
  induction s generalizing p with
  | nil => simp [strrchr] at h
  | cons x xs ih =>
    unfold strrchr at h
    cases hx : strrchr xs c with
    | some i =>
      simp only [hx, Option.some.injEq] at h
      obtain ⟨A, B, h1, h2, h3⟩ := ih i hx
      exact ⟨x :: A, B, by rw [h1]; rfl, by simp [h2, h], h3⟩
    | none =>
      simp only [hx] at h
      by_cases hc : x = c
      · simp only [hc, if_true, Option.some.injEq] at h
        exact ⟨[], xs, by simp [hc], by simp [h], strrchr_none xs c hx⟩
      · simp [hc] at h

theorem scanBack_spec (file : List Char) (c : Char) (k : Nat) :
    -1 ≤ scanBack file c k ∧ scanBack file c k < k ∧
    (scanBack file c k = -1 ↔ k = 0) ∧
    (0 < scanBack file c k → file.getD (scanBack file c k).toNat '\x00' = c) ∧
    ∀ j : Nat, scanBack file c k < j → j < k → file.getD j '\x00' ≠ c := by
  induction k with
  | zero =>
    refine ⟨by simp [scanBack], by simp [scanBack], by simp [scanBack], ?_, ?_⟩
    · intro h; simp [scanBack] at h
    · intro j _ h; omega
  | succ k ih =>
    obtain ⟨h1, h2, h3, h4, h5⟩ := ih
    by_cases hc : 0 < k ∧ file.getD k '\x00' ≠ c
    · have e : scanBack file c (k + 1) = scanBack file c k := by
        rw [scanBack, if_pos hc]
      rw [e]
      refine ⟨h1, by omega, ?_, h4, ?_⟩
      · constructor
        · intro h; have := h3.mp h; omega
        · intro h; omega
      · intro j hj hjk
        by_cases hjk2 : j = k
        · subst hjk2; exact hc.2
        · exact h5 j hj (by omega)
    · have e : scanBack file c (k + 1) = (k : Int) := by
        rw [scanBack, if_neg hc]
      rw [e]
      refine ⟨by omega, by omega, ?_, ?_, ?_⟩
      · constructor
        · intro h; omega
        · intro h; omega
      · intro hk
        have hk2 : 0 < k := by omega
        simp only [Int.toNat_ofNat]
        by_contra hne
        exact hc ⟨hk2, hne⟩
      · intro j hj hjk; omega

/-- The basename in the words of the claim: the part of the path after its last
separator, the whole path when it has none. -/
def baseName (b : Build) (file : List Char) : List Char :=
  match strrchr file (sep b) with
  | none => file
  | some p => file.drop (p + 1)

/-- The directory part of a path: what stands before its last separator, nothing when
it has none. -/
def dirName (b : Build) (file : List Char) : List Char :=
  match strrchr file (sep b) with
  | none => []
  | some p => file.take p

/-- The file name in the words of the amended claim C10: the basename of the path
preceded by its last directory component and the separator between them, when the
directory part of the path has a separator of its own that is not its first
character; the whole path otherwise. -/
def keepLastDirectory (b : Build) (file : List Char) : List Char :=
  match strrchr file (sep b) with
  | none => file
  | some _ =>
    match strrchr (dirName b file) (sep b) with
    | none => file
    | some 0 => file
    | some (_ + 1) => baseName b (dirName b file) ++ sep b :: baseName b file

/-- The claim C10 fails: for `a/b/c.cpp` the header shows `b/c.cpp`, which is not the
basename `c.cpp` and contains a separator. -/
theorem fileShort_keeps_directory :
    fileShort sampleBuild "a/b/c.cpp".toList = "b/c.cpp".toList ∧
    baseName sampleBuild "a/b/c.cpp".toList = "c.cpp".toList ∧
    sep sampleBuild ∈ fileShort sampleBuild "a/b/c.cpp".toList := by
  decide

theorem getD_append_left_of_lt (A B : List Char) (j : Nat) (h : j < A.length) :
    (A ++ B).getD j '\x00' = A[j] := by
  simp [List.getD_eq_getElem?_getD, List.getElem?_append_left h, List.getElem?_eq_getElem h]

/-! ## The global switch -/

/-- The globals with the switch off and the sample manager as the instance. -/
def sampleGlobalsOff : Globals := { bEnableLogging := false, logManager_ := some sampleManager }

/-- C11: while `g_Config.bEnableLogging` is false, `GenericLog` makes no call on any
listener and `GenericLogEnabled` answers false, for every level and channel and
whether or not an instance exists (`logManager_` is arbitrary); both leave the
globals, and with them every channel's enabled flag and level, as they were. -/
theorem genericLog_off_is_noop (b : Build) (env : LogEnv) (g : Globals) (level : LOG_LEVELS)
    (type : LOG_TYPE) (file : List Char) (line : Int) (text : List Char)
    (h : g.bEnableLogging = false) :
    GenericLog b env g level type file line text = (g, []) ∧
    GenericLogEnabled g level type = (g, false) := by
  constructor
  · simp [GenericLog, h]
  · unfold GenericLogEnabled
    cases g.logManager_ with
    | none => rfl
    | some inst => simp [h]

theorem genericLog_off_is_noop_witness :
    sampleGlobalsOff.bEnableLogging = false ∧
    (GenericLog sampleBuild sampleEnv sampleGlobalsOff LNOTICE 0 "a.cpp".toList 1
      "hi".toList).2 = [] ∧
    (GenericLogEnabled sampleGlobalsOff LNOTICE 0).2 = false ∧
    (GenericLogEnabled { bEnableLogging := false, logManager_ := none } LNOTICE 0).2 = false :=
  ⟨rfl,
    congrArg Prod.snd (genericLog_off_is_noop sampleBuild sampleEnv sampleGlobalsOff LNOTICE 0
      "a.cpp".toList 1 "hi".toList rfl).1,
    congrArg Prod.snd (genericLog_off_is_noop sampleBuild sampleEnv sampleGlobalsOff LNOTICE 0
      "a.cpp".toList 1 "hi".toList rfl).2,
    congrArg Prod.snd (genericLog_off_is_noop sampleBuild sampleEnv
      { bEnableLogging := false, logManager_ := none } LNOTICE 0 [] 0 [] rfl).2⟩

/-! ## Attaching and detaching -/

/-- C12: `AddListener` and `RemoveListener` with the null pointer leave the manager as
it was; `RemoveListener(l)` for an `l` that is not in the list leaves the manager as
it was; for an `l` that is in the list it removes the first entry equal to `l` and
keeps all other entries in their order; the channels are never touched. -/
theorem add_remove_listener_frame (m : LogManager) (l : LogListener) :
    m.AddListener none = m ∧ m.RemoveListener none = m ∧
    (l ∉ m.listeners_ → m.RemoveListener (some l) = m) ∧
    (l ∈ m.listeners_ → ∃ A B, m.listeners_ = A ++ l :: B ∧ l ∉ A ∧
      (m.RemoveListener (some l)).listeners_ = A ++ B) ∧
    (m.RemoveListener (some l)).log_ = m.log_ := by
  refine ⟨rfl, rfl, ?_, ?_, rfl⟩
  · intro h
    simp [LogManager.RemoveListener, List.erase_of_not_mem h]
  · intro h
    obtain ⟨A, B, hA, hl, he⟩ := List.exists_erase_eq h
    exact ⟨A, B, hl, hA, he⟩

theorem add_remove_listener_frame_witness :
    2 ∈ sampleManager.listeners_ ∧
    (∃ A B, sampleManager.listeners_ = A ++ 2 :: B ∧ 2 ∉ A ∧
      (sampleManager.RemoveListener (some 2)).listeners_ = A ++ B) ∧
    (sampleManager.RemoveListener (some 2)).listeners_ = [1, 4] :=
  ⟨by decide, (add_remove_listener_frame sampleManager 2).2.2.2.1 (by decide), by decide⟩

/-! ## Changing the file sink -/

/-- The objects behind the sample manager: a file sink on the empty path that failed
to open at 1, the console sink at 2, the debugger sink at 3, an enabled ring buffer
of two slots at 4. -/
def sampleHeap : Heap := fun a =>
  if a = 1 then some (.file (FileLogListener.ctor [] false))
  else if a = 2 then some (.other [])
  else if a = 3 then some (.debugger { output := [] })
  else if a = 4 then some (.ring ((RingbufferLogListener.fresh 2).SetEnabled true))
  else none

theorem LogManager.changeFileLog_none (m : LogManager) (heap : Heap) (newFile : LogListener)
    (opens : Bool) (f : LogListener) (hf : m.fileLog_ = some f) :
    m.ChangeFileLog heap none newFile opens =
      (m.RemoveListener (some f), Function.update heap f none) := by
  simp [LogManager.ChangeFileLog, hf]

theorem LogManager.changeFileLog_some (m : LogManager) (heap : Heap) (name : List Char)
    (newFile : LogListener) (opens : Bool) (f : LogListener) (hf : m.fileLog_ = some f) :
    (m.ChangeFileLog heap (some name) newFile opens).1.listeners_ =
      m.listeners_.erase f ++ [newFile] ∧
    (m.ChangeFileLog heap (some name) newFile opens).1.fileLog_ = some newFile ∧
    (m.ChangeFileLog heap (some name) newFile opens).1.log_ = m.log_ ∧
    (m.ChangeFileLog heap (some name) newFile opens).2 =
      Function.update (Function.update heap f none) newFile
        (some (.file (FileLogListener.ctor name opens))) := by
  simp [LogManager.ChangeFileLog, hf, LogManager.RemoveListener, LogManager.AddListener]

theorem not_mem_erase_of_count_le_one (l : List LogListener) (f : LogListener)
    (h : l.count f ≤ 1) : f ∉ l.erase f := by
  rw [← List.count_eq_zero, List.count_erase_self]
  omega

theorem Heap.isFileAt_update_file (heap : Heap) (a : LogListener) (f : FileLogListener) :
    Heap.isFileAt (Function.update heap a (some (.file f))) a = true := by
  simp [Heap.isFileAt, ListenerObj.isFile]

theorem Heap.isFileAt_update_none (heap : Heap) (a : LogListener) :
    Heap.isFileAt (Function.update heap a none) a = false := by
  simp [Heap.isFileAt]

theorem Heap.isFileAt_update_ne (heap : Heap) (a c : LogListener) (o : Option ListenerObj)
    (h : c ≠ a) : Heap.isFileAt (Function.update heap a o) c = Heap.isFileAt heap c := by
  simp [Heap.isFileAt, Function.update_noteq h]

/-- The claim C13 fails: `ChangeFileLog` with the empty path creates a file sink and
attaches it, so a file sink is in the listener list afterwards. -/
theorem changeFileLog_empty_path_attaches :
    (sampleManager.ChangeFileLog sampleHeap (some []) 9 false).1.listeners_ = [2, 4, 9] ∧
    (sampleManager.ChangeFileLog sampleHeap (some []) 9 false).2 9 =
      some (.file (FileLogListener.ctor [] false)) ∧
    Heap.isFileAt (sampleManager.ChangeFileLog sampleHeap (some []) 9 false).2 9 = true := by
  decide

/-- C13, amended: `ChangeFileLog` creates and attaches a new file sink exactly when a
path is given, that is when `filename` is not the null pointer; the empty path
counts as a path.  Let the file sink of the manager be alive and attached once, and
let it be the only file sink in the listener list.  After `ChangeFileLog` with no
path this sink is detached and destroyed, nothing is created, and no file sink is
in the listener list; after `ChangeFileLog` with a path, empty or not, the new file
sink is the last entry of the list. -/
theorem changeFileLog_attaches_iff_path_given (m : LogManager) (heap : Heap)
    (newFile : LogListener) (opens : Bool) (f : LogListener) (hf : m.fileLog_ = some f)
    (halive : heap f ≠ none) (hatt : m.listeners_.count f = 1)
    (honly : ∀ a ∈ m.listeners_, heap.isFileAt a = true → a = f) :
    (m.ChangeFileLog heap none newFile opens).1.listeners_ = m.listeners_.erase f ∧
    f ∉ (m.ChangeFileLog heap none newFile opens).1.listeners_ ∧
    (∀ a ∈ (m.ChangeFileLog heap none newFile opens).1.listeners_,
      Heap.isFileAt (m.ChangeFileLog heap none newFile opens).2 a = false) ∧
    (m.ChangeFileLog heap none newFile opens).2 = Function.update heap f none ∧
    ∀ name : List Char,
      (m.ChangeFileLog heap (some name) newFile opens).1.listeners_ =
        m.listeners_.erase f ++ [newFile] ∧
      Heap.isFileAt (m.ChangeFileLog heap (some name) newFile opens).2 newFile = true := by
  have _ := halive
  have hnot := not_mem_erase_of_count_le_one m.listeners_ f (by omega)
  rw [LogManager.changeFileLog_none m heap newFile opens f hf]
  refine ⟨rfl, hnot, ?_, rfl, ?_⟩
  · intro a ha
    have ha' : a ∈ m.listeners_.erase f := ha
    have hne : a ≠ f := fun e => hnot (e ▸ ha')
    rw [Heap.isFileAt_update_ne _ _ _ _ hne]
    cases hfile : Heap.isFileAt heap a with
    | false => rfl
    | true => exact absurd (honly a (List.mem_of_mem_erase ha') hfile) hne
  · intro name
    obtain ⟨h1, _, _, h4⟩ := LogManager.changeFileLog_some m heap name newFile opens f hf
    rw [h1, h4]
    exact ⟨rfl, Heap.isFileAt_update_file _ _ _⟩

theorem changeFileLog_attaches_iff_path_given_witness :
    sampleHeap 1 ≠ none ∧ sampleManager.listeners_.count 1 = 1 ∧
    (sampleManager.ChangeFileLog sampleHeap none 9 false).1.listeners_ = [2, 4] ∧
    (∀ a ∈ (sampleManager.ChangeFileLog sampleHeap none 9 false).1.listeners_,
      Heap.isFileAt (sampleManager.ChangeFileLog sampleHeap none 9 false).2 a = false) :=
  have h := changeFileLog_attaches_iff_path_given sampleManager sampleHeap 9 false 1 rfl
    (by decide) (by decide) (by decide)
  ⟨by decide, by decide, h.1.trans (by decide), h.2.2.1⟩

/-- C14: let the file sink of the manager be attached once, let it be the only file
sink in the listener list, and let `new` place the new sink at an address at which
no other attached listener lives.  After `ChangeFileLog(path)` the old sink is gone
from the list, the new sink, opened on `path`, is the last entry and the only file
sink in the list, and the other listeners are attached as before, in their order
and unchanged. -/
theorem changeFileLog_replaces_file_sink (m : LogManager) (heap : Heap) (name : List Char)
    (newFile : LogListener) (opens : Bool) (f : LogListener) (hf : m.fileLog_ = some f)
    (hatt : m.listeners_.count f = 1)
    (honly : ∀ a ∈ m.listeners_, heap.isFileAt a = true → a = f)
    (hfresh : ∀ a ∈ m.listeners_, a ≠ f → a ≠ newFile) :
    ∃ A B, m.listeners_ = A ++ f :: B ∧ f ∉ A ++ B ∧
      (m.ChangeFileLog heap (some name) newFile opens).1.listeners_ = A ++ B ++ [newFile] ∧
      (m.ChangeFileLog heap (some name) newFile opens).1.listeners_.filter
          (Heap.isFileAt (m.ChangeFileLog heap (some name) newFile opens).2) = [newFile] ∧
      (m.ChangeFileLog heap (some name) newFile opens).2 newFile =
        some (.file (FileLogListener.ctor name opens)) ∧
      (∀ a ∈ A ++ B, (m.ChangeFileLog heap (some name) newFile opens).2 a = heap a) ∧
      (m.ChangeFileLog heap (some name) newFile opens).1.fileLog_ = some newFile ∧
      (m.ChangeFileLog heap (some name) newFile opens).1.log_ = m.log_ := by
  obtain ⟨h1, h2, h3, h4⟩ := LogManager.changeFileLog_some m heap name newFile opens f hf
  have hmem : f ∈ m.listeners_ := List.count_pos_iff.mp (by omega)
  obtain ⟨A, B, hA, hl, he⟩ := List.exists_erase_eq hmem
  have hnot : f ∉ A ++ B := he ▸ not_mem_erase_of_count_le_one m.listeners_ f (by omega)
  have hsub : ∀ a ∈ A ++ B, a ∈ m.listeners_ := by
    intro a ha
    rw [← he] at ha
    exact List.mem_of_mem_erase ha
  have hframe : ∀ a ∈ A ++ B,
      (m.ChangeFileLog heap (some name) newFile opens).2 a = heap a := by
    intro a ha
    have hne : a ≠ f := fun e => hnot (e ▸ ha)
    have hne2 : a ≠ newFile := hfresh a (hsub a ha) hne
    rw [h4, Function.update_noteq hne2, Function.update_noteq hne]
  refine ⟨A, B, hl, hnot, by rw [h1, he], ?_, by rw [h4]; simp, hframe, h2, h3⟩
  rw [h1, he, List.filter_append]
  have hnil : List.filter (Heap.isFileAt (m.ChangeFileLog heap (some name) newFile opens).2)
      (A ++ B) = [] := by
    rw [List.filter_eq_nil_iff]
    intro a ha hfile
    have hne : a ≠ f := fun e => hnot (e ▸ ha)
    have hold : Heap.isFileAt heap a = true := by
      simpa [Heap.isFileAt, hframe a ha] using hfile
    exact hne (honly a (hsub a ha) hold)
  rw [hnil, h4]
  simp [Heap.isFileAt_update_file]

theorem changeFileLog_replaces_file_sink_witness :
    ∃ A B, sampleManager.listeners_ = A ++ 1 :: B ∧ 1 ∉ A ++ B ∧
      (sampleManager.ChangeFileLog sampleHeap (some "log.txt".toList) 9 true).1.listeners_ =
        A ++ B ++ [9] ∧
      (sampleManager.ChangeFileLog sampleHeap (some "log.txt".toList) 9 true).1.listeners_.filter
          (Heap.isFileAt
            (sampleManager.ChangeFileLog sampleHeap (some "log.txt".toList) 9 true).2) = [9] ∧
      (sampleManager.ChangeFileLog sampleHeap (some "log.txt".toList) 9 true).2 9 =
        some (.file (FileLogListener.ctor "log.txt".toList true)) ∧
      (∀ a ∈ A ++ B,
        (sampleManager.ChangeFileLog sampleHeap (some "log.txt".toList) 9 true).2 a =
          sampleHeap a) ∧
      (sampleManager.ChangeFileLog sampleHeap (some "log.txt".toList) 9 true).1.fileLog_ =
        some 9 ∧
      (sampleManager.ChangeFileLog sampleHeap (some "log.txt".toList) 9 true).1.log_ =
        sampleManager.log_ :=
  changeFileLog_replaces_file_sink sampleManager sampleHeap "log.txt".toList 9 true 1 rfl
    (by decide) (by decide) (by decide)

/-! ## Initialisation and the default levels -/

/-- The globals with the switch on and an instance whose channel 5 was disabled and
set to verbose. -/
def sampleGlobalsOn : Globals :=
  { bEnableLogging := true, logManager_ := some (sampleManagerWith 5 false LVERBOSE) }

/-- The claim C15 fails: `Init` on globals that already hold an instance replaces the
instance; the channel that was disabled and verbose is enabled and at the default
level afterwards. -/
theorem init_replaces_instance :
    (sampleGlobalsOn.logManager_.map fun m => (m.log_ 5).enabled) = some false ∧
    (sampleGlobalsOn.logManager_.map fun m => (m.log_ 5).level) = some LVERBOSE ∧
    ((LogManager.Init sampleBuild sampleGlobalsOn 11 12 13 14).logManager_.map
      fun m => (m.log_ 5).enabled) = some true ∧
    ((LogManager.Init sampleBuild sampleGlobalsOn 11 12 13 14).logManager_.map
      fun m => (m.log_ 5).level) = some LINFO ∧
    ((LogManager.Init sampleBuild sampleGlobalsOn 11 12 13 14).logManager_.map
      fun m => m.listeners_) = some [11, 12, 14] := by
  decide

/-- C15, amended: `Init` has no guard: whether or not an instance exists, it constructs
a new manager and stores it in `logManager_`, so an existing instance is replaced
by a newly constructed one with the default channel configuration and its own
listener list; the switch `bEnableLogging` is left as it was. -/
theorem init_always_constructs (b : Build) (g : Globals)
    (newFile newConsole newDebugger newRing : LogListener) :
    (LogManager.Init b g newFile newConsole newDebugger newRing).logManager_ =
      some (LogManager.ctor b newFile newConsole newDebugger newRing) ∧
    (LogManager.Init b g newFile newConsole newDebugger newRing).bEnableLogging =
      g.bEnableLogging :=
  ⟨rfl, rfl⟩

/-- The debug build that corresponds to the sample build. -/
def sampleDebugBuild : Build := { sampleBuild with debug := true }

/-- The claim C16 fails: the default level of a release build is `LINFO`, not the
errors-only level, and that of a debug build is `LDEBUG`, not the most verbose
level. -/
theorem ctor_default_level_not_as_claimed :
    ((LogManager.ctor sampleBuild 1 2 3 4).log_ 0).level = LINFO ∧
    ((LogManager.ctor sampleBuild 1 2 3 4).log_ 0).level ≠ LERROR ∧
    ((LogManager.ctor sampleDebugBuild 1 2 3 4).log_ 0).level = LDEBUG ∧
    ((LogManager.ctor sampleDebugBuild 1 2 3 4).log_ 0).level ≠ LVERBOSE := by
  decide

set_option maxRecDepth 100000 in
/-- C16, amended: after the construction of the manager every channel listed in
`logTable` is enabled and has the default level, which is `LDEBUG` (debug, one step
short of the most verbose level) in a debug build and `LINFO` (info) in a release
build. -/
theorem ctor_channels_enabled_default_level (b : Build)
    (newFile newConsole newDebugger newRing : LogListener) (e : LogNameTableEntry)
    (he : e ∈ logTable) :
    ((LogManager.ctor b newFile newConsole newDebugger newRing).log_ e.logType).enabled = true ∧
    ((LogManager.ctor b newFile newConsole newDebugger newRing).log_ e.logType).level =
      if b.debug then LDEBUG else LINFO := by
  rw [LogManager.ctor_log]
  simp only [logTable, List.mem_cons, List.mem_singleton, List.not_mem_nil, or_false] at he
  rcases he with h | h | h | h | h | h | h | h | h | h | h | h | h | h | h | h | h | h | h | h |
    h | h | h | h | h | h | h | h <;> (subst h; exact ⟨rfl, rfl⟩)

set_option maxRecDepth 100000 in
theorem ctor_channels_enabled_default_level_witness :
    (⟨5, "G3D".toList⟩ : LogNameTableEntry) ∈ logTable ∧
    ((LogManager.ctor sampleDebugBuild 1 2 3 4).log_ 5).enabled = true ∧
    ((LogManager.ctor sampleDebugBuild 1 2 3 4).log_ 5).level = LDEBUG :=
  ⟨by simp [logTable],
    ctor_channels_enabled_default_level sampleDebugBuild 1 2 3 4 ⟨5, "G3D".toList⟩
      (by simp [logTable])⟩

/-! ## The glyph table -/

/-- The claim C18 fails: the table has eight entries, the default glyph at index 0 and
the terminator at index 7, so only six levels have a printable glyph; there is no
glyph for a fatal level, and a seventh level would get the NUL. -/
theorem level_to_char_has_six_glyphs :
    level_to_char.length = 8 ∧ level_to_char.getD 7 '\x00' = '\x00' ∧
    isprint (level_to_char.getD 7 '\x00') = false ∧
    ((List.range level_to_char.length).filter
      fun i => decide (1 ≤ i) && isprint (level_to_char.getD i '\x00')).length = 6 := by
  decide

/-- C18, amended: the glyph table that `LogManager::Log` indexes with the level maps
each of the six severity levels notice, error, warning, info, debug and verbose
(the values 1 to 6) to one printable character, `N`, `E`, `W`, `I`, `D` and `V`;
these six and the glyph `-` of the unknown or default level (index 0) are pairwise
distinct; there is no glyph for a fatal level. -/
theorem level_to_char_glyphs :
    ([LNOTICE, LERROR, LWARNING, LINFO, LDEBUG, LVERBOSE].map
      fun level => level_to_char.getD level.toNat '\x00') = ['N', 'E', 'W', 'I', 'D', 'V'] ∧
    level_to_char.getD 0 '\x00' = '-' ∧
    (level_to_char.take 7).Nodup ∧
    (level_to_char.take 7).all isprint = true ∧
    'F' ∉ level_to_char := by
  decide

/-! ## The file sink -/

/-- C19: `FileLogListener::Log` leaves the sink, and with it the file, as it was whenever
the sink is disabled or its file failed to open; otherwise it appends to the file
the header of the message, one blank and the body of the message, in this order,
and nothing else. -/
theorem fileLog_noop_or_appends (f : FileLogListener) (message : LogMessage) :
    ((f.m_enable = false ∨ f.m_logfile.good = false) → f.Log message = f) ∧
    (f.m_enable = true → f.m_logfile.good = true →
      f.Log message =
        { m_logfile :=
            { path := f.m_logfile.path
              good := true
              written := f.m_logfile.written ++ message.header ++ [' '] ++ message.msg }
          m_enable := true }) := by
  constructor
  · rintro (h | h) <;> simp [FileLogListener.Log, FileLogListener.IsEnabled,
      FileLogListener.IsValid, h]
  · intro h1 h2
    simp [FileLogListener.Log, FileLogListener.IsEnabled, FileLogListener.IsValid, h1, h2]

theorem fileLog_noop_or_appends_witness :
    (FileLogListener.ctor "log.txt".toList false).Log (sampleMessage "hi\n") =
      FileLogListener.ctor "log.txt".toList false ∧
    ((FileLogListener.ctor "log.txt".toList true).Log
        { level := LINFO, log := "G3D".toList, header := "12:00 I[G3D]:".toList,
          msg := "hi\n".toList }).m_logfile.written = "12:00 I[G3D]: hi\n".toList :=
  ⟨(fileLog_noop_or_appends (FileLogListener.ctor "log.txt".toList false)
      (sampleMessage "hi\n")).1 (Or.inr rfl),
    (congrArg (fun f => f.m_logfile.written)
      ((fileLog_noop_or_appends (FileLogListener.ctor "log.txt".toList true)
        { level := LINFO, log := "G3D".toList, header := "12:00 I[G3D]:".toList,
          msg := "hi\n".toList }).2 rfl rfl)).trans (by decide)⟩

/-! ## The text of a log record -/

/-- The header before `snprintf` cuts it to the size of the array `message.header`, in
the two formats of `LogManager::Log`. -/
def headerText (env : LogEnv) (level : LOG_LEVELS) (shortName file : List Char) (line : Int) :
    List Char :=
  match env.hleCurrentThreadName with
  | some thread =>
    env.formattedTime ++ [' '] ++ pad12 thread ++ [' ', level_to_char.getD level.toNat '\x00', '[']
      ++ shortName ++ [']', ':', ' '] ++ file ++ [':'] ++ fmtInt line
  | none =>
    env.formattedTime ++ [' '] ++ file ++ [':'] ++ fmtInt line ++
      [' ', level_to_char.getD level.toNat '\x00', '['] ++ shortName ++ [']', ':']

theorem formatHeader_eq_snprintf (b : Build) (env : LogEnv) (level : LOG_LEVELS)
    (shortName file : List Char) (line : Int) :
    formatHeader b env level shortName file line =
      snprintf b.headerSize (headerText env level shortName file line) := by
  unfold formatHeader headerText
  cases env.hleCurrentThreadName <;> rfl

theorem formatHeader_of_fits (b : Build) (env : LogEnv) (level : LOG_LEVELS)
    (shortName file : List Char) (line : Int)
    (h : (headerText env level shortName file line).length < b.headerSize) :
    formatHeader b env level shortName file line = headerText env level shortName file line := by
  rw [formatHeader_eq_snprintf, snprintf]
  exact List.take_of_length_le (by omega)

set_option maxRecDepth 100000 in
/-- The claim C17 fails: without a current thread name the record reads
`<timestamp> <file>:<line> <glyph>[<channel>]: <message>`, with the file and the
line before the tag of glyph and channel, and the tag directly before the body. -/
theorem record_without_thread_name :
    sampleEnv.hleCurrentThreadName = none ∧
    ((FileLogListener.ctor "log.txt".toList true).Log
        (LogManager.buildMessage sampleBuild sampleEnv (sampleManager.log_ 0) LNOTICE
          "a/b/c.cpp".toList 10 "hi".toList)).m_logfile.written =
      "12:00:00:000 b/c.cpp:10 N[SYSTEM]: hi\n".toList := by
  decide

/-- A moment with the current thread name `main`. -/
def sampleEnvThread : LogEnv :=
  { formattedTime := "12:00:00:000".toList, hleCurrentThreadName := some "main".toList,
    retryText := [] }

/-- C17, amended: for a header that fits into the array `message.header`, the text that
an enabled file sink with an open file appends for a message is the header, one
blank and the body.  When a current thread name is set the header reads
`<timestamp> <thread name, twelve wide> <glyph>[<channel>]: <file>:<line>`, so the
tag of glyph and channel comes before file and line, which come directly before the
body; when none is set the header reads `<timestamp> <file>:<line>
<glyph>[<channel>]:`, so file and line come before the tag, which comes directly
before the body. -/
theorem record_text_in_both_formats (b : Build) (env : LogEnv) (log : LogChannel)
    (level : LOG_LEVELS) (file : List Char) (line : Int) (text : List Char)
    (f : FileLogListener) (he : f.m_enable = true) (hg : f.m_logfile.good = true)
    (hfit : (headerText env level log.m_shortName (fileShort b file) line).length <
      b.headerSize) :
    (f.Log (LogManager.buildMessage b env log level file line text)).m_logfile.written =
      f.m_logfile.written ++ headerText env level log.m_shortName (fileShort b file) line ++
        [' '] ++ formatBody env.retryText text ∧
    (∀ thread, env.hleCurrentThreadName = some thread →
      headerText env level log.m_shortName (fileShort b file) line =
        env.formattedTime ++ [' '] ++ pad12 thread ++ [' '] ++
          [level_to_char.getD level.toNat '\x00'] ++ ['['] ++ log.m_shortName ++
          [']', ':', ' '] ++ fileShort b file ++ [':'] ++ fmtInt line) ∧
    (env.hleCurrentThreadName = none →
      headerText env level log.m_shortName (fileShort b file) line =
        env.formattedTime ++ [' '] ++ fileShort b file ++ [':'] ++ fmtInt line ++ [' '] ++
          [level_to_char.getD level.toNat '\x00'] ++ ['['] ++ log.m_shortName ++ [']', ':']) := by
  refine ⟨?_, ?_, ?_⟩
  · simp [FileLogListener.Log, FileLogListener.IsEnabled, FileLogListener.IsValid, he, hg,
      LogManager.buildMessage, formatHeader_of_fits b env level _ _ line hfit]
  · intro thread ht
    simp [headerText, ht]
  · intro ht
    simp [headerText, ht]

set_option maxRecDepth 100000 in
theorem record_text_in_both_formats_witness :
    ((FileLogListener.ctor "log.txt".toList true).Log
        (LogManager.buildMessage sampleBuild sampleEnvThread (sampleManager.log_ 0) LNOTICE
          "a/b/c.cpp".toList 10 "hi".toList)).m_logfile.written =
      "12:00:00:000 main         N[SYSTEM]: b/c.cpp:10 hi\n".toList :=
  ((record_text_in_both_formats sampleBuild sampleEnvThread (sampleManager.log_ 0) LNOTICE
    "a/b/c.cpp".toList 10 "hi".toList (FileLogListener.ctor "log.txt".toList true) rfl rfl
    (by decide)).1).trans (by decide)

/-! ## Unavailable sinks -/

/-- A sink that drops what it is handed: a file sink whose file failed to open, or a
ring buffer that is not enabled. -/
def ListenerObj.unavailable : ListenerObj → Bool
  | .file f => !f.IsValid
  | .ring r => !r.enabled_
  | _ => false

theorem ListenerObj.log_of_unavailable (msc : Bool) (MAX_LOGS : Nat) (o : ListenerObj)
    (message : LogMessage) (h : o.unavailable = true) : o.Log msc MAX_LOGS message = o := by
  cases o with
  | file f =>
    simp only [ListenerObj.unavailable, Bool.not_eq_true'] at h
    simp [ListenerObj.Log, FileLogListener.Log, h]
  | ring r =>
    simp only [ListenerObj.unavailable, Bool.not_eq_true'] at h
    simp [ListenerObj.Log, RingbufferLogListener.Log, h]
  | debugger d => simp [ListenerObj.unavailable] at h
  | other received => simp [ListenerObj.unavailable] at h

theorem deliver_map (msc : Bool) (MAX_LOGS : Nat) (message : LogMessage)
    (ls : List LogListener) (heap : Heap) (a : LogListener) :
    deliver msc MAX_LOGS heap (ls.map fun l => (l, message)) a =
      (heap a).map fun o => (fun x => ListenerObj.Log msc MAX_LOGS x message)^[ls.count a] o := by
  induction ls generalizing heap with
  | nil => simp [deliver]
  | cons x rest ih =>
    have hstep : deliver msc MAX_LOGS heap ((x :: rest).map fun l => (l, message)) =
        deliver msc MAX_LOGS
          (Function.update heap x ((heap x).map fun o => o.Log msc MAX_LOGS message))
          (rest.map fun l => (l, message)) := rfl
    rw [hstep, ih]
    by_cases hax : a = x
    · subst hax
      rw [Function.update_same, List.count_cons_self, Option.map_map]
      congr 1
    · rw [Function.update_noteq hax, List.count_cons_of_ne hax]

/-- C20: let a sink that drops what it is handed live at the address `bad` (a file sink
whose file failed to open, or a ring buffer that is not enabled).  For every
listener list, with `bad` in it or not, and every message that passes the filter of
its channel, `LogManager::Log` leaves the listener list as it was, leaves the
unavailable sink as it was, and hands the message to every other listener as often
as it is in the list: once to each when no listener is attached twice. -/
theorem unavailable_sink_does_not_stop_others (b : Build) (msc : Bool) (MAX_LOGS : Nat)
    (env : LogEnv) (m : LogManager) (heap : Heap) (level : LOG_LEVELS) (type : LOG_TYPE)
    (file : List Char) (line : Int) (text : List Char) (bad : LogListener) (o : ListenerObj)
    (hpass : LogManager.IsEnabled m level type = true) (hbad : heap bad = some o)
    (hun : o.unavailable = true) :
    (LogManager.runLog b msc MAX_LOGS env m heap level type file line text).1.listeners_ =
      m.listeners_ ∧
    (LogManager.runLog b msc MAX_LOGS env m heap level type file line text).2 bad = some o ∧
    (∀ a, (LogManager.runLog b msc MAX_LOGS env m heap level type file line text).2 a =
      (heap a).map fun x =>
        (fun y => ListenerObj.Log msc MAX_LOGS y
          (LogManager.buildMessage b env (m.log_ type) level file line text))^[
            m.listeners_.count a] x) ∧
    (m.listeners_.Nodup → ∀ a ∈ m.listeners_,
      (LogManager.runLog b msc MAX_LOGS env m heap level type file line text).2 a =
        (heap a).map fun x => ListenerObj.Log msc MAX_LOGS x
          (LogManager.buildMessage b env (m.log_ type) level file line text)) := by
  have hf := LogManager.isEnabled_eq m level type
  rw [hpass] at hf
  have hc : (m.log_ type).enabled = true ∧ level ≤ (m.log_ type).level := by
    simpa using hf.symm
  have hall : ∀ a, (LogManager.runLog b msc MAX_LOGS env m heap level type file line text).2 a =
      (heap a).map fun x =>
        (fun y => ListenerObj.Log msc MAX_LOGS y
          (LogManager.buildMessage b env (m.log_ type) level file line text))^[
            m.listeners_.count a] x := by
    intro a
    simp only [LogManager.runLog, LogManager.log_eq_ite, if_pos hc, Option.getD_some]
    exact deliver_map msc MAX_LOGS _ m.listeners_ heap a
  refine ⟨rfl, ?_, hall, ?_⟩
  · rw [hall bad, hbad, Option.map_some']
    congr 1
    exact Function.iterate_fixed (ListenerObj.log_of_unavailable msc MAX_LOGS o _ hun) _
  · intro hnd a ha
    rw [hall a, List.count_eq_one_of_mem hnd ha]
    rfl

set_option maxRecDepth 100000 in
theorem unavailable_sink_does_not_stop_others_witness :
    (LogManager.runLog sampleBuild false 2 sampleEnv sampleManager sampleHeap LNOTICE 0
        "a/b/c.cpp".toList 10 "hi".toList).2 1 =
      some (.file (FileLogListener.ctor [] false)) ∧
    (LogManager.runLog sampleBuild false 2 sampleEnv sampleManager sampleHeap LNOTICE 0
        "a/b/c.cpp".toList 10 "hi".toList).2 2 =
      some (.other [LogManager.buildMessage sampleBuild sampleEnv (sampleManager.log_ 0) LNOTICE
        "a/b/c.cpp".toList 10 "hi".toList]) :=
  have h := unavailable_sink_does_not_stop_others sampleBuild false 2 sampleEnv sampleManager
    sampleHeap LNOTICE 0 "a/b/c.cpp".toList 10 "hi".toList 1
    (.file (FileLogListener.ctor [] false)) (by decide) rfl rfl
  ⟨h.2.1, (h.2.2.2 (by decide) 2 (by decide)).trans rfl⟩

/-! ## The file name of the header, case by case -/

theorem strrchr_eq_none_of_not_mem (s : List Char) (c : Char) (h : c ∉ s) :
    strrchr s c = none := by
  induction s with
  | nil => rfl
  | cons x xs ih =>
    simp only [List.mem_cons, not_or] at h
    unfold strrchr
    rw [ih h.2]
    simp [Ne.symm h.1]

theorem strrchr_append_last (X C : List Char) (c : Char) (h : c ∉ C) :
    strrchr (X ++ c :: C) c = some X.length := by
  induction X with
  | nil =>
    simp only [List.nil_append, List.length_nil]
    unfold strrchr
    rw [strrchr_eq_none_of_not_mem C c h]
    simp
  | cons x X ih =>
    simp only [List.cons_append, List.length_cons]
    unfold strrchr
    rw [ih]

theorem getD_append_at_length (A B : List Char) (c : Char) :
    (A ++ c :: B).getD A.length '\x00' = c := by
  rw [List.getD_eq_getElem?_getD, List.getElem?_append_right (le_refl _)]
  simp

theorem scanBack_stops_at_separator (A B R : List Char) (c : Char) (hB : c ∉ B) (n : Nat)
    (hn : n ≤ B.length) :
    scanBack (A ++ c :: (B ++ R)) c (A.length + 1 + n) = (A.length : Int) := by
  induction n with
  | zero =>
    have e : A.length + 1 + 0 = A.length + 1 := rfl
    rw [e, scanBack, getD_append_at_length]
    simp
  | succ n ih =>
    have e : A.length + 1 + (n + 1) = (A.length + 1 + n) + 1 := by omega
    have hlt : n < B.length := by omega
    have hget : (A ++ c :: (B ++ R)).getD (A.length + 1 + n) '\x00' = B[n] := by
      have e2 : A ++ c :: (B ++ R) = (A ++ [c]) ++ (B ++ R) := by simp
      rw [e2, List.getD_eq_getElem?_getD, List.getElem?_append_right (by simp)]
      simp [List.getElem?_append_left hlt, List.getElem?_eq_getElem hlt]
    have hne : B[n] ≠ c := fun h => hB (h ▸ List.getElem_mem _)
    rw [e, scanBack, hget, if_pos ⟨by omega, hne⟩]
    exact ih (by omega)

theorem exists_last_occurrence (s : List Char) (c : Char) (h : c ∈ s) :
    ∃ X C, s = X ++ c :: C ∧ c ∉ C := by
  cases hs : strrchr s c with
  | none => exact absurd h (strrchr_none s c hs)
  | some k =>
    obtain ⟨X, C, h1, _, h3⟩ := strrchr_some s c k hs
    exact ⟨X, C, h1, h3⟩

theorem exists_last_two_occurrences (s : List Char) (c : Char) (h : 2 ≤ s.count c) :
    ∃ A B C, s = A ++ c :: (B ++ c :: C) ∧ c ∉ B ∧ c ∉ C := by
  obtain ⟨X, C, h1, h2⟩ := exists_last_occurrence s c (List.count_pos_iff.mp (by omega))
  have hX : 0 < X.count c := by
    rw [h1, List.count_append, List.count_cons_self, List.count_eq_zero_of_not_mem h2] at h
    omega
  obtain ⟨A, B, h3, h4⟩ := exists_last_occurrence X c (List.count_pos_iff.mp hX)
  exact ⟨A, B, C, by rw [h1, h3]; simp, h4, h2⟩

theorem fileShort_of_few_separators (b : Build) (p : List Char) (h : p.count (sep b) < 2) :
    fileShort b p = p := by
  unfold fileShort
  cases hs : strrchr p (sep b) with
  | none => rfl
  | some k =>
    obtain ⟨X, C, h1, h2, h3⟩ := strrchr_some p (sep b) k hs
    have hX : sep b ∉ X := by
      rw [h1, List.count_append, List.count_cons_self] at h
      exact List.count_eq_zero.mp (by omega)
    obtain ⟨q1, q2, _, q4, _⟩ := scanBack_spec p (sep b) k
    have hq : scanBack p (sep b) k ≤ 0 := by
      by_contra hpos
      have hpos : 0 < scanBack p (sep b) k := by omega
      have hget := q4 hpos
      generalize hj : (scanBack p (sep b) k).toNat = j at hget
      have hlt : j < X.length := by omega
      rw [h1, getD_append_left_of_lt _ _ _ hlt] at hget
      exact hX (hget ▸ List.getElem_mem _)
    by_cases h0 : scanBack p (sep b) k ≠ 0
    · have e : (scanBack p (sep b) k + 1).toNat = 0 := by omega
      simp only [h0, ne_eq, not_false_eq_true, if_true, e, List.drop_zero]
    · simp only [h0, if_false]

theorem fileShort_of_two_separators (b : Build) (A B C : List Char) (hB : sep b ∉ B)
    (hC : sep b ∉ C) :
    fileShort b (A ++ sep b :: (B ++ sep b :: C)) =
      if A = [] then A ++ sep b :: (B ++ sep b :: C) else B ++ sep b :: C := by
  have hs : strrchr (A ++ sep b :: (B ++ sep b :: C)) (sep b) = some (A.length + 1 + B.length) := by
    have e : A ++ sep b :: (B ++ sep b :: C) = (A ++ sep b :: B) ++ sep b :: C := by simp
    rw [e, strrchr_append_last _ _ _ hC]
    simp
    omega
  have hq := scanBack_stops_at_separator A B (sep b :: C) (sep b) hB B.length (le_refl _)
  unfold fileShort
  simp only [hs, hq]
  by_cases hA : A = []
  · subst hA
    simp
  · have hlen : 0 < A.length := List.length_pos.mpr hA
    have hne : (A.length : Int) ≠ 0 := by omega
    have e : ((A.length : Int) + 1).toNat = A.length + 1 := by omega
    rw [if_pos hne, if_neg hA, e]
    simp

/-- C22: for every path `p`, the file name that `LogManager::Log` renders into the header
is a suffix of `p`.  It is `p` itself when `p` has fewer than two separators.  When
`p` has two or more, write `p` as `A`, separator, `B`, separator, `C` with no
separator in `B` and `C`, so that the second-to-last separator follows `A`: the
name is `p` itself when `A` is empty, that is when this separator is the first
character, and otherwise it is `B`, separator, `C`, the part after the
second-to-last separator, which holds exactly one separator. -/
theorem fileShort_after_second_to_last_separator (b : Build) (p : List Char) :
    fileShort b p <:+ p ∧
    (p.count (sep b) < 2 → fileShort b p = p) ∧
    (2 ≤ p.count (sep b) →
      ∃ A B C, p = A ++ sep b :: (B ++ sep b :: C) ∧ sep b ∉ B ∧ sep b ∉ C ∧
        (A = [] → fileShort b p = p) ∧
        (A ≠ [] → fileShort b p = B ++ sep b :: C ∧ (fileShort b p).count (sep b) = 1)) := by
  have htwo : 2 ≤ p.count (sep b) →
      ∃ A B C, p = A ++ sep b :: (B ++ sep b :: C) ∧ sep b ∉ B ∧ sep b ∉ C ∧
        (A = [] → fileShort b p = p) ∧
        (A ≠ [] → fileShort b p = B ++ sep b :: C ∧ (fileShort b p).count (sep b) = 1) := by
    intro h
    obtain ⟨A, B, C, hp, hB, hC⟩ := exists_last_two_occurrences p (sep b) h
    have hf := fileShort_of_two_separators b A B C hB hC
    rw [← hp] at hf
    refine ⟨A, B, C, hp, hB, hC, ?_, ?_⟩
    · intro hA
      rw [hf, if_pos hA]
    · intro hA
      rw [hf, if_neg hA]
      refine ⟨rfl, ?_⟩
      rw [List.count_append, List.count_cons_self, List.count_eq_zero_of_not_mem hB,
        List.count_eq_zero_of_not_mem hC]
  refine ⟨?_, fileShort_of_few_separators b p, htwo⟩
  by_cases h : p.count (sep b) < 2
  · rw [fileShort_of_few_separators b p h]
  · obtain ⟨A, B, C, hp, _, _, h1, h2⟩ := htwo (by omega)
    by_cases hA : A = []
    · rw [h1 hA]
    · rw [(h2 hA).1, hp]
      exact ⟨A ++ [sep b], by simp⟩

theorem fileShort_after_second_to_last_separator_witness :
    2 ≤ "a/b/c.cpp".toList.count (sep sampleBuild) ∧
    ∃ A B C, "a/b/c.cpp".toList = A ++ sep sampleBuild :: (B ++ sep sampleBuild :: C) ∧
      sep sampleBuild ∉ B ∧ sep sampleBuild ∉ C ∧
      (A = [] → fileShort sampleBuild "a/b/c.cpp".toList = "a/b/c.cpp".toList) ∧
      (A ≠ [] → fileShort sampleBuild "a/b/c.cpp".toList = B ++ sep sampleBuild :: C ∧
        (fileShort sampleBuild "a/b/c.cpp".toList).count (sep sampleBuild) = 1) :=
  ⟨by decide,
    (fileShort_after_second_to_last_separator sampleBuild "a/b/c.cpp".toList).2.2 (by decide)⟩

/-! ## Attaching a listener twice -/

theorem count_map_pair (ls : List LogListener) (message : LogMessage) (l : LogListener) :
    (ls.map fun a => (a, message)).count (l, message) = ls.count l := by
  induction ls with
  | nil => rfl
  | cons x rest ih =>
    rw [List.map_cons, List.count_cons, List.count_cons, ih]
    by_cases hx : x = l
    · subst hx; simp
    · have hne : ((x, message) == (l, message)) = false := by
        simp [hx]
      simp [hne, hx]

theorem LogManager.log_count (b : Build) (env : LogEnv) (m : LogManager) (level : LOG_LEVELS)
    (type : LOG_TYPE) (file : List Char) (line : Int) (text : List Char) (l : LogListener)
    (h : LogManager.IsEnabled m level type = true) :
    ((LogManager.Log b env m level type file line text).getD []).count
        (l, LogManager.buildMessage b env (m.log_ type) level file line text) =
      m.listeners_.count l := by
  have hf := LogManager.isEnabled_eq m level type
  rw [h] at hf
  have hc : (m.log_ type).enabled = true ∧ level ≤ (m.log_ type).level := by
    simpa using hf.symm
  rw [LogManager.log_eq_ite, if_pos hc, Option.getD_some, count_map_pair]

/-- C23: `AddListener` does not look for duplicates.  After `AddListener(l)` was called
twice with the same non-null listener, the list is the old list followed by `l`
twice, and a message that passes the filter is handed to `l` twice more than
before, twice when `l` was not attached before.  One `RemoveListener(l)` then
removes the first occurrence only: `l` is still in the list, and is handed each
message once more than before the two calls, once when `l` was not attached
before. -/
theorem addListener_twice_delivers_twice (b : Build) (env : LogEnv) (m : LogManager)
    (l : LogListener) (level : LOG_LEVELS) (type : LOG_TYPE) (file : List Char) (line : Int)
    (text : List Char) (h : LogManager.IsEnabled m level type = true) :
    ((m.AddListener (some l)).AddListener (some l)).listeners_ = m.listeners_ ++ [l, l] ∧
    ((LogManager.Log b env ((m.AddListener (some l)).AddListener (some l)) level type file line
        text).getD []).count
        (l, LogManager.buildMessage b env (m.log_ type) level file line text) =
      m.listeners_.count l + 2 ∧
    l ∈ (((m.AddListener (some l)).AddListener (some l)).RemoveListener (some l)).listeners_ ∧
    ((LogManager.Log b env
        (((m.AddListener (some l)).AddListener (some l)).RemoveListener (some l)) level type file
        line text).getD []).count
        (l, LogManager.buildMessage b env (m.log_ type) level file line text) =
      m.listeners_.count l + 1 ∧
    (l ∉ m.listeners_ →
      (((m.AddListener (some l)).AddListener (some l)).RemoveListener (some l)).listeners_ =
        m.listeners_ ++ [l]) := by
  have h2 : ((m.AddListener (some l)).AddListener (some l)).listeners_ = m.listeners_ ++ [l, l] := by
    simp [LogManager.AddListener]
  have hc3 : (((m.AddListener (some l)).AddListener (some l)).RemoveListener
      (some l)).listeners_.count l = m.listeners_.count l + 1 := by
    show ((((m.AddListener (some l)).AddListener (some l)).listeners_).erase l).count l = _
    rw [List.count_erase_self, h2]
    simp
  refine ⟨h2, ?_, ?_, ?_, ?_⟩
  · have := LogManager.log_count b env ((m.AddListener (some l)).AddListener (some l)) level
      type file line text l h
    rw [h2] at this
    simpa [LogManager.AddListener] using this
  · exact List.count_pos_iff.mp (by omega)
  · have := LogManager.log_count b env
      (((m.AddListener (some l)).AddListener (some l)).RemoveListener (some l)) level
      type file line text l h
    rw [hc3] at this
    exact this
  · intro hl
    show ((((m.AddListener (some l)).AddListener (some l)).listeners_).erase l) = _
    rw [h2, List.erase_append_right _ hl]
    simp

theorem addListener_twice_delivers_twice_witness :
    LogManager.IsEnabled sampleManager LNOTICE 0 = true ∧
    ((sampleManager.AddListener (some 7)).AddListener (some 7)).listeners_ = [1, 2, 4, 7, 7] ∧
    (((sampleManager.AddListener (some 7)).AddListener (some 7)).RemoveListener
      (some 7)).listeners_ = [1, 2, 4, 7] :=
  have h := addListener_twice_delivers_twice sampleBuild sampleEnv sampleManager 7 LNOTICE 0
    "a.cpp".toList 1 "hi".toList (by decide)
  ⟨by decide, h.1.trans (by decide), (h.2.2.2.2 (by decide)).trans (by decide)⟩

/-! ## The file sink field after `ChangeFileLog` -/

/-- The invariant of the claim C24: the field `fileLog_` is null or refers to a sink that
is alive, and every listener of the list is alive. -/
def LogManager.SinksAlive (m : LogManager) (heap : Heap) : Prop :=
  (∀ f, m.fileLog_ = some f → heap f ≠ none) ∧ ∀ a ∈ m.listeners_, heap a ≠ none

/-- C24: on the manager as constructed, whose sinks are all alive, `ChangeFileLog(nullptr)`
removes the file sink from the list and deletes it but leaves the field `fileLog_`
pointing to it: the field refers to a destroyed sink afterwards, and the invariant
is broken. -/
theorem changeFileLog_null_leaves_dangling_field :
    sampleManager.SinksAlive sampleHeap ∧
    sampleManager.fileLog_ = some 1 ∧
    (sampleManager.ChangeFileLog sampleHeap none 9 false).1.fileLog_ = some 1 ∧
    (sampleManager.ChangeFileLog sampleHeap none 9 false).2 1 = none ∧
    ¬ (sampleManager.ChangeFileLog sampleHeap none 9 false).1.SinksAlive
        (sampleManager.ChangeFileLog sampleHeap none 9 false).2 := by
  refine ⟨⟨?_, ?_⟩, rfl, rfl, by decide, ?_⟩
  · intro f hf
    have e : f = 1 := (Option.some.inj hf).symm
    subst e
    decide
  · decide
  · intro h
    exact h.1 1 rfl (by decide)

/-! ## The pointer mask of a touch button -/

theorem pointerBit_eq (id : Nat) (hid : id < 32) : pointerBit id = 2 ^ id := by
  unfold pointerBit
  rw [Nat.one_shiftLeft]
  exact Nat.mod_eq_of_lt (Nat.pow_lt_pow_right (by decide) hid)

theorem testBit_pointerBit (id j : Nat) (hid : id < 32) :
    (pointerBit id).testBit j = decide (id = j) := by
  rw [pointerBit_eq id hid, Nat.testBit_two_pow]

theorem testBit_notPointerBit (id j : Nat) (hid : id < 32) (hj : j < 32) :
    (notPointerBit id).testBit j = !decide (id = j) := by
  unfold notPointerBit
  rw [Nat.testBit_xor, Nat.testBit_two_pow_sub_one, testBit_pointerBit id j hid]
  simp [hj]

theorem testBit_set_pointer (mask id j : Nat) (hid : id < 32) :
    (mask ||| pointerBit id).testBit j = (mask.testBit j || decide (id = j)) := by
  rw [Nat.testBit_or, testBit_pointerBit id j hid]

theorem testBit_clear_pointer (mask id j : Nat) (hid : id < 32) (hj : j < 32) :
    (mask &&& notPointerBit id).testBit j = (mask.testBit j && !decide (id = j)) := by
  rw [Nat.testBit_and, testBit_notPointerBit id j hid hj]

/-- C25: for an input whose pointer id is between 0 and 31, `MultiTouchButton::Touch`
leaves the mask at 0 when `TOUCH_RELEASE_ALL` is set; otherwise bit `id` is clear
when `TOUCH_UP` is set; after an input with `TOUCH_DOWN` only and the point inside
the bounds bit `id` is set; after an input with `TOUCH_MOVE` only bit `id` is set when
the point is inside the bounds and clear when it is outside; and unless
`TOUCH_RELEASE_ALL` is set the bit of every other pointer id is as it was. -/
theorem touch_keeps_pointer_mask (btn : MultiTouchButton) (input : TouchInput)
    (hid : input.id < 32) :
    (input.flagReleaseAll = true → (btn.Touch input).pointerDownMask_ = 0) ∧
    (input.flagReleaseAll = false → input.flagUp = true →
      (btn.Touch input).pointerDownMask_.testBit input.id = false) ∧
    (input.flagDown = true → input.flagMove = false → input.flagUp = false →
      input.flagReleaseAll = false → input.inBounds = true →
      (btn.Touch input).pointerDownMask_.testBit input.id = true) ∧
    (input.flagMove = true → input.flagDown = false → input.flagUp = false →
      input.flagReleaseAll = false →
      (btn.Touch input).pointerDownMask_.testBit input.id = input.inBounds) ∧
    (input.flagReleaseAll = false → ∀ j, j < 32 → j ≠ input.id →
      (btn.Touch input).pointerDownMask_.testBit j = btn.pointerDownMask_.testBit j) := by
  obtain ⟨id, fd, fm, fu, fr, ib⟩ := input
  simp only at hid
  refine ⟨?_, ?_, ?_, ?_, ?_⟩
  · intro h
    simp only at h
    simp [MultiTouchButton.Touch, h]
  · intro h1 h2
    simp only at h1 h2
    simp [MultiTouchButton.Touch, h1, h2, testBit_clear_pointer _ id id hid hid]
  · intro h1 h2 h3 h4 h5
    simp only at h1 h2 h3 h4 h5
    simp [MultiTouchButton.Touch, h1, h2, h3, h4, h5, testBit_set_pointer _ id id hid]
  · intro h1 h2 h3 h4
    simp only at h1 h2 h3 h4
    cases ib <;>
      simp [MultiTouchButton.Touch, h1, h2, h3, h4, testBit_set_pointer _ id id hid,
        testBit_clear_pointer _ id id hid hid]
  · intro h1 j hj hne
    simp only at h1 hne
    have hne2 : ¬ id = j := fun e => hne e.symm
    cases fd <;> cases fm <;> cases fu <;> cases ib <;>
      simp [MultiTouchButton.Touch, h1, testBit_set_pointer _ id j hid,
        testBit_clear_pointer _ id j hid hj, hne2]

theorem touch_keeps_pointer_mask_witness :
    (({ pointerDownMask_ := 5 } : MultiTouchButton).Touch
      { id := 1, flagDown := true, flagMove := false, flagUp := false, flagReleaseAll := false,
        inBounds := true }).pointerDownMask_.testBit 1 = true ∧
    (({ pointerDownMask_ := 5 } : MultiTouchButton).Touch
      { id := 1, flagDown := true, flagMove := false, flagUp := false, flagReleaseAll := false,
        inBounds := true }).pointerDownMask_.testBit 2 = Nat.testBit 5 2 :=
  have h := touch_keeps_pointer_mask { pointerDownMask_ := 5 }
    { id := 1, flagDown := true, flagMove := false, flagUp := false, flagReleaseAll := false,
      inBounds := true } (by decide)
  ⟨h.2.2.1 rfl rfl rfl rfl rfl, h.2.2.2.2 rfl 2 (by decide) (by decide)⟩

/-! ## The file name of the header and the basename -/

/-- C10, amended: for every source-file path, the file name rendered into the header
ends with the basename of the path but is not the basename in general: when the
directory part of the path (what stands before the last separator) contains a
separator that is not its first character, the name is the last directory
component, a separator and the basename, which is the part of the path after its
second-to-last separator; in every other case, also when the path has one
separator or more, the name is the whole path. -/
theorem fileShort_eq_keepLastDirectory (b : Build) (file : List Char) :
    fileShort b file = keepLastDirectory b file ∧ baseName b file <:+ fileShort b file := by
  cases hs : strrchr file (sep b) with
  | none =>
    have hc : file.count (sep b) < 2 := by
      rw [List.count_eq_zero_of_not_mem (strrchr_none file (sep b) hs)]
      decide
    rw [fileShort_of_few_separators b file hc]
    simp [keepLastDirectory, baseName, hs]
  | some k =>
    obtain ⟨X, C, hfile, hlen, hC⟩ := strrchr_some file (sep b) k hs
    have hdir : dirName b file = X := by
      simp only [dirName, hs]
      rw [hfile, ← hlen]
      simp
    have hbase : baseName b file = C := by
      simp only [baseName, hs]
      rw [hfile, ← hlen]
      simp
    cases hs2 : strrchr X (sep b) with
    | none =>
      have hX := strrchr_none X (sep b) hs2
      have hc : file.count (sep b) < 2 := by
        rw [hfile, List.count_append, List.count_cons_self, List.count_eq_zero_of_not_mem hX,
          List.count_eq_zero_of_not_mem hC]
        decide
      rw [fileShort_of_few_separators b file hc, hbase]
      refine ⟨by simp [keepLastDirectory, hs, hdir, hs2], ?_⟩
      rw [hfile]
      exact ⟨X ++ [sep b], by simp⟩
    | some j =>
      obtain ⟨A, B, hX, hlenA, hB⟩ := strrchr_some X (sep b) j hs2
      have hfile2 : file = A ++ sep b :: (B ++ sep b :: C) := by
        rw [hfile, hX]; simp
      have hshort := fileShort_of_two_separators b A B C hB hC
      rw [← hfile2] at hshort
      have hbaseX : baseName b X = B := by
        simp only [baseName, hs2]
        rw [hX, ← hlenA]
        simp
      rw [hshort, hbase]
      cases j with
      | zero =>
        have hA : A = [] := List.length_eq_zero.mp hlenA
        rw [if_pos hA]
        refine ⟨by simp [keepLastDirectory, hs, hdir, hs2], ?_⟩
        rw [hfile]
        exact ⟨X ++ [sep b], by simp⟩
      | succ j =>
        have hA : A ≠ [] := by
          intro h
          rw [h] at hlenA
          simp at hlenA
        rw [if_neg hA]
        refine ⟨by simp [keepLastDirectory, hs, hdir, hs2, hbaseX, hbase], ?_⟩
        exact ⟨B ++ [sep b], by simp⟩

theorem keepLastDirectory_examples :
    keepLastDirectory sampleBuild "x/a/b/c.cpp".toList = "b/c.cpp".toList ∧
    keepLastDirectory sampleBuild "a/b/c.cpp".toList = "b/c.cpp".toList ∧
    keepLastDirectory sampleBuild "/b/c.cpp".toList = "/b/c.cpp".toList ∧
    keepLastDirectory sampleBuild "b/c.cpp".toList = "b/c.cpp".toList ∧
    keepLastDirectory sampleBuild "/c.cpp".toList = "/c.cpp".toList ∧
    keepLastDirectory sampleBuild "c.cpp".toList = "c.cpp".toList := by
  decide
